import Mathlib

/-!
# sdlpp_ttf: a verification development

A shallow embedding of the C++ wrapper classes of `sdlpp_ttf`
(`subsystem/TTF.h`, `ttf/Font.h`, `ttf/Glyph.h`, `ttf/RenderModes.h`,
`ttf/FontManager.h`) over an explicit model of the native SDL_ttf library.

The native library is a parameter: `Native` gives, for every native function,
the value it returns as a function of the whole history of native calls made
so far and of the arguments of the call.  The wrapper code is state passing
over a `World`, which holds that history and the control blocks of the
`boost::shared_ptr<TTF_Font>` values the wrapper creates.  A thrown
`runtime_error` is `Except.error` carrying the message.
-/

namespace sdl

/-! ## The native library -/

/-- A native pointer (`TTF_Font*`, `SDL_Surface*`): an address, `NULL` being 0. -/
abbrev Ptr := Nat

/-- The null pointer. -/
def NULL : Ptr := 0

/-- The native colour value `SDL_Color`. -/
structure SDL_Color where
  r : Nat
  g : Nat
  b : Nat
  unused : Nat
  deriving DecidableEq, Repr

/-- The native text-size functions. -/
inductive SizeFn where
  | TTF_SizeText
  | TTF_SizeUTF8
  | TTF_SizeUNICODE
  deriving DecidableEq, Repr

/-- The native render functions: three text encodings and the single glyph,
for each of the three render styles. -/
inductive RenderFn where
  | TTF_RenderText_Solid
  | TTF_RenderUTF8_Solid
  | TTF_RenderUNICODE_Solid
  | TTF_RenderGlyph_Solid
  | TTF_RenderText_Shaded
  | TTF_RenderUTF8_Shaded
  | TTF_RenderUNICODE_Shaded
  | TTF_RenderGlyph_Shaded
  | TTF_RenderText_Blended
  | TTF_RenderUTF8_Blended
  | TTF_RenderUNICODE_Blended
  | TTF_RenderGlyph_Blended
  deriving DecidableEq, Repr

/-- What is rendered: a string (`text.c_str ()`) or one character code. -/
inductive RenderArg where
  | text (s : String)
  | glyph (ch : Nat)
  deriving DecidableEq, Repr

/-- One call of a native function, with the arguments the wrapper passed.
A `std::string` argument `s.c_str ()` is recorded as the string `s`. -/
inductive NativeCall where
  | TTF_Init
  | TTF_Quit
  | TTF_WasInit
  | TTF_ByteSwappedUNICODE (swapped : Int)
  | TTF_GetError
  | TTF_OpenFont (file : String) (ptsize : Int)
  | TTF_CloseFont (font : Ptr)
  | TTF_GlyphMetrics (font : Ptr) (ch : Nat)
  | size (fn : SizeFn) (font : Ptr) (text : String)
  | render (fn : RenderFn) (font : Ptr) (arg : RenderArg) (fg : SDL_Color)
      (bg : Option SDL_Color)
  deriving DecidableEq, Repr

/-- What `TTF_GlyphMetrics` leaves behind: its return value and the contents
of its five out-parameters after the call. -/
structure GlyphMetricsResult where
  ret : Int
  minx : Int
  maxx : Int
  miny : Int
  maxy : Int
  advance : Int
  deriving DecidableEq, Repr

/-- What a native size function leaves behind: its return value and the
contents of its out-parameters `w` and `h` after the call. -/
structure SizeResult where
  ret : Int
  w : Int
  h : Int
  deriving DecidableEq, Repr

/-- The native library.  Every field takes the history of native calls made
before this one, then the arguments of the call. -/
structure Native where
  /-- `int TTF_Init ()`: 0 on success, -1 on error. -/
  TTF_Init : List NativeCall → Int
  /-- `char* TTF_GetError ()`: the current error string. -/
  TTF_GetError : List NativeCall → String
  /-- `TTF_Font* TTF_OpenFont (const char* file, int ptsize)`: `NULL` on error. -/
  TTF_OpenFont : List NativeCall → String → Int → Ptr
  /-- `int TTF_GlyphMetrics (TTF_Font*, Uint16 ch, int* minx, int* maxx,
  int* miny, int* maxy, int* advance)`: 0 on success, -1 on error.  The five
  out-parameters hold 0 when the wrapper calls it. -/
  TTF_GlyphMetrics : List NativeCall → Ptr → Nat → GlyphMetricsResult
  /-- `int TTF_Size* (TTF_Font*, const char* text, int* w, int* h)`: the last
  two arguments are the contents of `*w` and `*h` before the call. -/
  size : List NativeCall → SizeFn → Ptr → String → Int → Int → SizeResult
  /-- `SDL_Surface* TTF_Render*_* (TTF_Font*, text or ch, SDL_Color fg
  [, SDL_Color bg])`. -/
  render : List NativeCall → RenderFn → Ptr → RenderArg → SDL_Color →
    Option SDL_Color → Ptr

/-! ## The wrapper's world: native history and shared_ptr control blocks -/

/-- The control block of one `boost::shared_ptr<TTF_Font>` family: the
pointer it owns, to be given to the deleter `&TTF_CloseFont`, and its use
count. -/
structure CtrlBlock where
  ptr : Ptr
  useCount : Nat
  deriving DecidableEq, Repr

/-- The state the wrapper code runs in. -/
structure World where
  /-- The native calls made so far, oldest first. -/
  calls : List NativeCall
  /-- The control blocks created so far; a block is named by its index. -/
  blocks : List CtrlBlock
  deriving DecidableEq, Repr

/-- Record one native call. -/
def World.call (w : World) (c : NativeCall) : World :=
  { w with calls := w.calls ++ [c] }

/-- A `boost::shared_ptr<TTF_Font>`: the stored pointer `px` and the control
block `pn` it shares. -/
structure SharedPtr where
  px : Ptr
  pn : Nat
  deriving DecidableEq, Repr

/-- `shared_ptr::get`. -/
def SharedPtr.get (sp : SharedPtr) : Ptr := sp.px

/-- `shared_ptr (p, &TTF_CloseFont)`: a fresh control block owning `p` with
use count 1. -/
def SharedPtr.new (w : World) (p : Ptr) : SharedPtr × World :=
  (⟨p, w.blocks.length⟩, { w with blocks := w.blocks ++ [⟨p, 1⟩] })

/-- The copy constructor of `shared_ptr`: the use count of the shared block
grows by one. -/
def SharedPtr.copy (w : World) (sp : SharedPtr) : SharedPtr × World :=
  (sp,
    match w.blocks[sp.pn]? with
    | none => w
    | some b =>
      { w with blocks := w.blocks.set sp.pn { b with useCount := b.useCount + 1 } })

/-- The destructor of `shared_ptr`: the use count drops by one, and the
owner that brings it to zero invokes the deleter `TTF_CloseFont` on the owned
pointer (also when that pointer is null: a pointer given with a deleter is
owned). -/
def SharedPtr.release (w : World) (sp : SharedPtr) : World :=
  match w.blocks[sp.pn]? with
  | none => w
  | some b =>
    if b.useCount = 0 then w
    else if b.useCount = 1 then
      { calls := w.calls ++ [NativeCall.TTF_CloseFont b.ptr],
        blocks := w.blocks.set sp.pn { b with useCount := 0 } }
    else
      { w with blocks := w.blocks.set sp.pn { b with useCount := b.useCount - 1 } }

/-! ## ttf/Font.h and ttf/Glyph.h -/

/-- `enum Encodings { TEXT, UTF8, UNICODE }`, as the integers the template
parameter `int Encoding` ranges over. -/
def TEXT : Int := 0

/-- Second enumerator of `Encodings`. -/
def UTF8 : Int := 1

/-- Third enumerator of `Encodings`. -/
def UNICODE : Int := 2

/-- The conversion of a `char` argument (given by its integer value) to the
`Uint16` parameter of the native glyph functions. -/
def toUint16 (c : Int) : Nat := (c % 65536).toNat

/-- `struct Font`: its one member, the shared pointer `font_`. -/
structure Font where
  font_ : SharedPtr
  deriving DecidableEq, Repr

/-- `Font::operator*`: `font_.get ()`. -/
def Font.deref (self : Font) : Ptr := self.font_.get

/-- The constructor `Font::Font (filename, pointSize)`: `font_` is initialised
from `TTF_OpenFont` with the deleter `&TTF_CloseFont`; a null `font_.get ()`
throws `runtime_error (TTF_GetError ())`, and the unwinding destroys the
already constructed member `font_`. -/
def Font.new (N : Native) (w : World) (filename : String) (pointSize : Int) :
    Except String Font × World :=
  let p := N.TTF_OpenFont w.calls filename pointSize
  let w1 := w.call (NativeCall.TTF_OpenFont filename pointSize)
  let sp := (SharedPtr.new w1 p).1
  let w2 := (SharedPtr.new w1 p).2
  if sp.get = NULL then
    (Except.error (N.TTF_GetError w2.calls),
      SharedPtr.release (w2.call NativeCall.TTF_GetError) sp)
  else
    (Except.ok ⟨sp⟩, w2)

/-- The implicit copy constructor of `Font`: member-wise, so a copy of
`font_`. -/
def Font.copy (w : World) (self : Font) : Font × World :=
  (⟨(SharedPtr.copy w self.font_).1⟩, (SharedPtr.copy w self.font_).2)

/-- The destructor `Font::~Font ()`: an empty body, then the destruction of
the member `font_`. -/
def Font.destroy (w : World) (self : Font) : World :=
  SharedPtr.release w self.font_

/-- `struct Glyph`: the five metrics. -/
structure Glyph where
  minx_ : Int
  maxx_ : Int
  miny_ : Int
  maxy_ : Int
  advance_ : Int
  deriving DecidableEq, Repr

/-- `Glyph::minx`. -/
def Glyph.minx (self : Glyph) : Int := self.minx_

/-- `Glyph::maxx`. -/
def Glyph.maxx (self : Glyph) : Int := self.maxx_

/-- `Glyph::miny`. -/
def Glyph.miny (self : Glyph) : Int := self.miny_

/-- `Glyph::maxy`. -/
def Glyph.maxy (self : Glyph) : Int := self.maxy_

/-- `Glyph::advance`. -/
def Glyph.advance (self : Glyph) : Int := self.advance_

/-- The constructor `Glyph::Glyph (font, c)`: the members are
value-initialised to 0, `TTF_GlyphMetrics (*font, c, &minx_, &maxx_, &miny_,
&maxy_, &advance_)` is called, and the constructor throws
`runtime_error (TTF_GetError ())` when `!TTF_GlyphMetrics (...)` holds, that
is when the native function returned 0. -/
def Glyph.new (N : Native) (w : World) (font : Font) (c : Int) :
    Except String Glyph × World :=
  let r := N.TTF_GlyphMetrics w.calls font.deref (toUint16 c)
  let w1 := w.call (NativeCall.TTF_GlyphMetrics font.deref (toUint16 c))
  if r.ret = 0 then
    (Except.error (N.TTF_GetError w1.calls), w1.call NativeCall.TTF_GetError)
  else
    (Except.ok ⟨r.minx, r.maxx, r.miny, r.maxy, r.advance⟩, w1)

/-- `Font::glyph (c)`: `Glyph (*this, c)`. -/
def Font.glyph (N : Native) (w : World) (self : Font) (c : Int) :
    Except String Glyph × World :=
  Glyph.new N w self c

/-- The two `int` cells the arguments `height` and `width` of `Font::size`
point to. -/
structure SizeOut where
  height : Int
  width : Int
  deriving DecidableEq, Repr

/-- The primary template of `Font::size<Encoding>`:
`TTF_SizeText (font_.get (), text.c_str (), width, height)`. -/
def Font.size_primary (N : Native) (w : World) (self : Font) (text : String)
    (o : SizeOut) : SizeOut × World :=
  let r := N.size w.calls SizeFn.TTF_SizeText self.font_.get text o.width o.height
  (⟨r.h, r.w⟩, w.call (NativeCall.size SizeFn.TTF_SizeText self.font_.get text))

/-- The specialisation `Font::size<TEXT>`:
`TTF_SizeText (font_.get (), text.c_str (), width, height)`. -/
def Font.size_TEXT (N : Native) (w : World) (self : Font) (text : String)
    (o : SizeOut) : SizeOut × World :=
  let r := N.size w.calls SizeFn.TTF_SizeText self.font_.get text o.width o.height
  (⟨r.h, r.w⟩, w.call (NativeCall.size SizeFn.TTF_SizeText self.font_.get text))

/-- The specialisation `Font::size<UTF8>`:
`TTF_SizeUTF8 (font_.get (), text.c_str (), width, height)`. -/
def Font.size_UTF8 (N : Native) (w : World) (self : Font) (text : String)
    (o : SizeOut) : SizeOut × World :=
  let r := N.size w.calls SizeFn.TTF_SizeUTF8 self.font_.get text o.width o.height
  (⟨r.h, r.w⟩, w.call (NativeCall.size SizeFn.TTF_SizeUTF8 self.font_.get text))

/-- The specialisation `Font::size<UNICODE>`: its body is empty, the call of
`TTF_SizeUNICODE` being commented out. -/
def Font.size_UNICODE (_N : Native) (w : World) (_self : Font) (_text : String)
    (o : SizeOut) : SizeOut × World :=
  (o, w)

/-- `Font::size<Encoding> (text, height, width)`: the explicit specialisation
for `Encoding` when there is one, the primary template otherwise. -/
def Font.size (Encoding : Int) (N : Native) (w : World) (self : Font)
    (text : String) (o : SizeOut) : SizeOut × World :=
  if Encoding = TEXT then Font.size_TEXT N w self text o
  else if Encoding = UTF8 then Font.size_UTF8 N w self text o
  else if Encoding = UNICODE then Font.size_UNICODE N w self text o
  else Font.size_primary N w self text o

/-! ## ttf/RenderModes.h -/

/-- The class `video::Surface` of sdlpp, of which the wrapper uses two
constructors: `Surface (SDL_Surface*)` on a native result and the default
constructor `Surface ()`.  A value records which one built it. -/
inductive Surface where
  | fromNative (s : Ptr)
  | default
  deriving DecidableEq, Repr

/-- The class `misc::Color` of sdlpp, of which the wrapper uses `**color_`,
the `SDL_Color` it holds. -/
structure Color where
  value : SDL_Color
  deriving DecidableEq, Repr

/-- `**color`. -/
def Color.deref2 (c : Color) : SDL_Color := c.value

/-- `struct Solid`. -/
structure Solid where
  color_ : Color
  deriving DecidableEq, Repr

/-- `struct Shaded`. -/
structure Shaded where
  fg_ : Color
  bg_ : Color
  deriving DecidableEq, Repr

/-- `struct Blended`. -/
structure Blended where
  color_ : Color
  deriving DecidableEq, Repr

/-- One native render call on a font: the surface pointer the native function
returns, wrapped by `Surface (SDL_Surface*)`, and the call recorded. -/
def nativeRender (N : Native) (w : World) (fn : RenderFn) (font : Font)
    (arg : RenderArg) (fg : SDL_Color) (bg : Option SDL_Color) : Surface × World :=
  (Surface.fromNative (N.render w.calls fn font.deref arg fg bg),
    w.call (NativeCall.render fn font.deref arg fg bg))

/-- `Solid::render (font, c)`. -/
def Solid.render_glyph (self : Solid) (N : Native) (w : World) (font : Font)
    (c : Int) : Surface × World :=
  nativeRender N w RenderFn.TTF_RenderGlyph_Solid font (RenderArg.glyph (toUint16 c))
    self.color_.deref2 none

/-- The primary template of `Solid::render<Encoding> (font, text)`. -/
def Solid.render_primary (self : Solid) (N : Native) (w : World) (font : Font)
    (text : String) : Surface × World :=
  nativeRender N w RenderFn.TTF_RenderText_Solid font (RenderArg.text text)
    self.color_.deref2 none

/-- `Solid::render<TEXT>`. -/
def Solid.render_TEXT (self : Solid) (N : Native) (w : World) (font : Font)
    (text : String) : Surface × World :=
  nativeRender N w RenderFn.TTF_RenderText_Solid font (RenderArg.text text)
    self.color_.deref2 none

/-- `Solid::render<UTF8>`. -/
def Solid.render_UTF8 (self : Solid) (N : Native) (w : World) (font : Font)
    (text : String) : Surface × World :=
  nativeRender N w RenderFn.TTF_RenderUTF8_Solid font (RenderArg.text text)
    self.color_.deref2 none

/-- `Solid::render<UNICODE>`: `return Surface ();`, the native call being
commented out. -/
def Solid.render_UNICODE (_self : Solid) (_N : Native) (w : World) (_font : Font)
    (_text : String) : Surface × World :=
  (Surface.default, w)

/-- `Solid::render<Encoding> (font, text)`: the explicit specialisation for
`Encoding` when there is one, the primary template otherwise. -/
def Solid.render (Encoding : Int) (self : Solid) (N : Native) (w : World)
    (font : Font) (text : String) : Surface × World :=
  if Encoding = TEXT then self.render_TEXT N w font text
  else if Encoding = UTF8 then self.render_UTF8 N w font text
  else if Encoding = UNICODE then self.render_UNICODE N w font text
  else self.render_primary N w font text

/-- `Shaded::render (font, c)`. -/
def Shaded.render_glyph (self : Shaded) (N : Native) (w : World) (font : Font)
    (c : Int) : Surface × World :=
  nativeRender N w RenderFn.TTF_RenderGlyph_Shaded font (RenderArg.glyph (toUint16 c))
    self.fg_.deref2 (some self.bg_.deref2)

/-- The primary template of `Shaded::render<Encoding> (font, text)`. -/
def Shaded.render_primary (self : Shaded) (N : Native) (w : World) (font : Font)
    (text : String) : Surface × World :=
  nativeRender N w RenderFn.TTF_RenderText_Shaded font (RenderArg.text text)
    self.fg_.deref2 (some self.bg_.deref2)

/-- `Shaded::render<TEXT>`. -/
def Shaded.render_TEXT (self : Shaded) (N : Native) (w : World) (font : Font)
    (text : String) : Surface × World :=
  nativeRender N w RenderFn.TTF_RenderText_Shaded font (RenderArg.text text)
    self.fg_.deref2 (some self.bg_.deref2)

/-- `Shaded::render<UTF8>`. -/
def Shaded.render_UTF8 (self : Shaded) (N : Native) (w : World) (font : Font)
    (text : String) : Surface × World :=
  nativeRender N w RenderFn.TTF_RenderUTF8_Shaded font (RenderArg.text text)
    self.fg_.deref2 (some self.bg_.deref2)

/-- `Shaded::render<UNICODE>`: `return Surface ();`, the native call being
commented out. -/
def Shaded.render_UNICODE (_self : Shaded) (_N : Native) (w : World) (_font : Font)
    (_text : String) : Surface × World :=
  (Surface.default, w)

/-- `Shaded::render<Encoding> (font, text)`. -/
def Shaded.render (Encoding : Int) (self : Shaded) (N : Native) (w : World)
    (font : Font) (text : String) : Surface × World :=
  if Encoding = TEXT then self.render_TEXT N w font text
  else if Encoding = UTF8 then self.render_UTF8 N w font text
  else if Encoding = UNICODE then self.render_UNICODE N w font text
  else self.render_primary N w font text

/-- `Blended::render (font, c)`. -/
def Blended.render_glyph (self : Blended) (N : Native) (w : World) (font : Font)
    (c : Int) : Surface × World :=
  nativeRender N w RenderFn.TTF_RenderGlyph_Blended font (RenderArg.glyph (toUint16 c))
    self.color_.deref2 none

/-- The primary template of `Blended::render<Encoding> (font, text)`. -/
def Blended.render_primary (self : Blended) (N : Native) (w : World) (font : Font)
    (text : String) : Surface × World :=
  nativeRender N w RenderFn.TTF_RenderText_Blended font (RenderArg.text text)
    self.color_.deref2 none

/-- `Blended::render<TEXT>`. -/
def Blended.render_TEXT (self : Blended) (N : Native) (w : World) (font : Font)
    (text : String) : Surface × World :=
  nativeRender N w RenderFn.TTF_RenderText_Blended font (RenderArg.text text)
    self.color_.deref2 none

/-- `Blended::render<UTF8>`. -/
def Blended.render_UTF8 (self : Blended) (N : Native) (w : World) (font : Font)
    (text : String) : Surface × World :=
  nativeRender N w RenderFn.TTF_RenderUTF8_Blended font (RenderArg.text text)
    self.color_.deref2 none

/-- `Blended::render<UNICODE>`: `return Surface ();`, the native call being
commented out. -/
def Blended.render_UNICODE (_self : Blended) (_N : Native) (w : World) (_font : Font)
    (_text : String) : Surface × World :=
  (Surface.default, w)

/-- `Blended::render<Encoding> (font, text)`. -/
def Blended.render (Encoding : Int) (self : Blended) (N : Native) (w : World)
    (font : Font) (text : String) : Surface × World :=
  if Encoding = TEXT then self.render_TEXT N w font text
  else if Encoding = UTF8 then self.render_UTF8 N w font text
  else if Encoding = UNICODE then self.render_UNICODE N w font text
  else self.render_primary N w font text

/-- What the template parameter `class RenderMode` of `Font::render` must
offer: a member template `render<Encoding> (font, text)`. -/
class RenderMode (M : Type) where
  render : Int → M → Native → World → Font → String → Surface × World

instance : RenderMode Solid := ⟨Solid.render⟩

instance : RenderMode Shaded := ⟨Shaded.render⟩

instance : RenderMode Blended := ⟨Blended.render⟩

/-- `Font::render<Encoding, RenderMode> (text, mode)`:
`mode.render<Encoding> (*this, text)`. -/
def Font.render {M : Type} [RenderMode M] (Encoding : Int) (N : Native) (w : World)
    (self : Font) (text : String) (mode : M) : Surface × World :=
  RenderMode.render Encoding mode N w self text

/-! ## subsystem/TTF.h -/

/-- `struct TTF`: it has no data member. -/
structure TTF where
  deriving DecidableEq, Repr

/-- `TTF::init`: throws `runtime_error (TTF_GetError ())` when `TTF_Init ()`
returns -1. -/
def TTF.init (N : Native) (w : World) : Except String Unit × World :=
  let r := N.TTF_Init w.calls
  let w1 := w.call NativeCall.TTF_Init
  if r = -1 then
    (Except.error (N.TTF_GetError w1.calls), w1.call NativeCall.TTF_GetError)
  else
    (Except.ok (), w1)

/-- `TTF::quit`. -/
def TTF.quit (w : World) : World := w.call NativeCall.TTF_Quit

/-- The constructor `TTF::TTF ()`: `init ()`. -/
def TTF.new (N : Native) (w : World) : Except String TTF × World :=
  match (TTF.init N w).1 with
  | Except.error e => (Except.error e, (TTF.init N w).2)
  | Except.ok _ => (Except.ok ⟨⟩, (TTF.init N w).2)

/-- `TTF::instance ()`, with the function-local `static TTF instance_`:
`constructed` tells whether the static has been constructed.  The first pass
through the declaration runs the constructor; a constructor that throws
leaves the static unconstructed, so that the next call tries again. -/
def TTF.instance (N : Native) (w : World) (constructed : Bool) :
    Except String TTF × World × Bool :=
  if constructed then (Except.ok ⟨⟩, w, true)
  else
    match (TTF.new N w).1 with
    | Except.error e => (Except.error e, (TTF.new N w).2, false)
    | Except.ok t => (Except.ok t, (TTF.new N w).2, true)

/-! ## ttf/FontManager.h -/

/-- `std::map::find`: the value stored under `k`, `none` standing for
`end ()`.  A `std::map` is kept as a list of key-value pairs; the wrapper
never iterates over its maps, so their order is not modelled. -/
def mapFind {κ ν : Type} [DecidableEq κ] : List (κ × ν) → κ → Option ν
  | [], _ => none
  | (k', v) :: rest, k => if k' = k then some v else mapFind rest k

/-- `std::map::insert (make_pair (k, v))`: adds the pair when no entry has
the key `k`, and leaves the map unchanged otherwise. -/
def mapInsert {κ ν : Type} [DecidableEq κ] : List (κ × ν) → κ → ν → List (κ × ν)
  | [], k, v => [(k, v)]
  | (k', v') :: rest, k, v =>
    if k' = k then (k', v') :: rest else (k', v') :: mapInsert rest k v

/-- A change made through an iterator, `iter->second = g (iter->second)`
for the entry `find (k)` points to. -/
def mapModify {κ ν : Type} [DecidableEq κ] : List (κ × ν) → κ → (ν → ν) → List (κ × ν)
  | [], _, _ => []
  | (k', v') :: rest, k, g =>
    if k' = k then (k', g v') :: rest else (k', v') :: mapModify rest k g

/-- `typedef map<int, Font> FontSizeMap`. -/
abbrev FontSizeMap := List (Int × Font)

/-- `typedef map<string, FontSizeMap> FontMap`. -/
abbrev FontMap := List (String × FontSizeMap)

/-- `struct FontManager`: its one member, the map `fonts_`. -/
structure FontManager where
  fonts_ : FontMap
  deriving DecidableEq, Repr

/-- `FontManager::font (fileName, pointSize)`.

The three branches of the source: both keys found, the cached `Font` is
returned (a copy of it); the file name found but not the size, a `Font` is
constructed and inserted in the size map of that name; the file name not
found, a `Font` is constructed and a new size map holding it is inserted.
A `Font` constructor that throws leaves through the function.  One copy of
the new `Font` stays in the map and the local `font` is what is returned; the
temporaries of `make_pair` and `insert`, copied and destroyed again within the
statement, are not modelled. -/
def FontManager.font (N : Native) (w : World) (self : FontManager)
    (fileName : String) (pointSize : Int) : Except String Font × World × FontManager :=
  match mapFind self.fonts_ fileName with
  | some sizeMap =>
    match mapFind sizeMap pointSize with
    | some cached => (Except.ok (Font.copy w cached).1, (Font.copy w cached).2, self)
    | none =>
      match (Font.new N w fileName pointSize).1 with
      | Except.error e => (Except.error e, (Font.new N w fileName pointSize).2, self)
      | Except.ok font =>
        (Except.ok font,
          (Font.copy (Font.new N w fileName pointSize).2 font).2,
          ⟨mapModify self.fonts_ fileName (fun m =>
            mapInsert m pointSize (Font.copy (Font.new N w fileName pointSize).2 font).1)⟩)
  | none =>
    match (Font.new N w fileName pointSize).1 with
    | Except.error e => (Except.error e, (Font.new N w fileName pointSize).2, self)
    | Except.ok font =>
      (Except.ok font,
        (Font.copy (Font.new N w fileName pointSize).2 font).2,
        ⟨mapInsert self.fonts_ fileName
          (mapInsert [] pointSize (Font.copy (Font.new N w fileName pointSize).2 font).1)⟩)

/-- The cached `Font` under `(fileName, pointSize)`, if there is one. -/
def FontManager.lookup (self : FontManager) (fileName : String) (pointSize : Int) :
    Option Font :=
  match mapFind self.fonts_ fileName with
  | some sizeMap => mapFind sizeMap pointSize
  | none => none

/-- The number of cached `Font`s: the sizes of the size maps, added up. -/
def FontManager.entryCount (self : FontManager) : Nat :=
  (self.fonts_.map (fun e => e.2.length)).sum

/-- The number of `TTF_OpenFont` calls in a history. -/
def openCount (calls : List NativeCall) : Nat :=
  calls.countP (fun c => match c with
    | NativeCall.TTF_OpenFont _ _ => true
    | _ => false)

/-! ## Concrete native libraries and inputs -/

/-- A native library in which every call succeeds: `TTF_OpenFont` hands out
a fresh non-null handle, `TTF_GlyphMetrics` returns 0 and reports the metrics
(1, 2, 3, 4, 5), every size function reports width 10 and height 20, and
every render function returns the surface 7. -/
def nativeOk : Native where
  TTF_Init := fun _ => 0
  TTF_GetError := fun _ => ""
  TTF_OpenFont := fun calls _ _ => calls.length + 1
  TTF_GlyphMetrics := fun _ _ _ => ⟨0, 1, 2, 3, 4, 5⟩
  size := fun _ _ _ _ _ _ => ⟨0, 10, 20⟩
  render := fun _ _ _ _ _ _ => 7

/-- A native library in which every call fails with the error string
`"failed"`: `TTF_Init` and `TTF_GlyphMetrics` return -1, `TTF_OpenFont` and the
render functions return `NULL`, and no out-parameter is written. -/
def nativeFail : Native where
  TTF_Init := fun _ => -1
  TTF_GetError := fun _ => "failed"
  TTF_OpenFont := fun _ _ _ => NULL
  TTF_GlyphMetrics := fun _ _ _ => ⟨-1, 0, 0, 0, 0, 0⟩
  size := fun _ _ _ _ w h => ⟨-1, w, h⟩
  render := fun _ _ _ _ _ _ => NULL

/-- The world before any native call. -/
def World.empty : World := ⟨[], []⟩

/-- A `Font` holding the handle 1 in control block 0. -/
def font1 : Font := ⟨⟨1, 0⟩⟩

/-- A world in which `font1` is the one live `Font`. -/
def world1 : World := ⟨[NativeCall.TTF_OpenFont "a.ttf" 12], [⟨1, 1⟩]⟩

/-- The colour black. -/
def black : Color := ⟨⟨0, 0, 0, 0⟩⟩

/-- The colour white. -/
def white : Color := ⟨⟨255, 255, 255, 0⟩⟩

/-- A run of `font` calls on one `FontManager`, each with its own file name
and point size, successful or throwing: the world and the manager after the
last of them. -/
def FontManager.fontCalls (N : Native) (w : World) (self : FontManager) :
    List (String × Int) → World × FontManager
  | [] => (w, self)
  | (p, s) :: rest =>
    FontManager.fontCalls N (FontManager.font N w self p s).2.1
      (FontManager.font N w self p s).2.2 rest

/-- A cache holding `font1` under `("a.ttf", 12)`. -/
def manager1 : FontManager := ⟨[("a.ttf", [(12, font1)])]⟩

/-! ## The life of `Font` values -/

/-- The `Font` values a `FontMap` holds. -/
def cacheFonts : FontMap → List Font
  | [] => []
  | (_, sizeMap) :: rest => sizeMap.map Prod.snd ++ cacheFonts rest

/-- The destruction of a sequence of `Font` values, one after the other. -/
def destroyAll (w : World) : List Font → World
  | [] => w
  | f :: rest => destroyAll (Font.destroy w f) rest

/-- A running program: the world, the static `FontManager::instance_`
(`none` once it has been destroyed at the end of the program), and the `Font`
values client code holds. -/
structure Program where
  w : World
  manager : Option FontManager
  fonts : List Font
  deriving DecidableEq, Repr

/-- What a client program does with `Font` values. -/
inductive Op where
  /-- `Font f (filename, pointSize)`. -/
  | construct (filename : String) (pointSize : Int)
  /-- `FontManager::instance ().font (fileName, pointSize)`, the client
  keeping the `Font` returned. -/
  | font (fileName : String) (pointSize : Int)
  /-- A copy of the client's `i`-th `Font`. -/
  | copy (i : Nat)
  /-- The destruction of the client's `i`-th `Font`. -/
  | destroy (i : Nat)
  /-- The destruction of the static `FontManager`, and with it of the map
  `fonts_` and every `Font` in it. -/
  | exit
  deriving DecidableEq, Repr

/-- One operation of the client.  An operation on a `Font` the client does
not hold, or on a destroyed `FontManager`, is no operation of a C++ program
and changes nothing. -/
def Program.step (N : Native) (s : Program) : Op → Program
  | Op.construct filename pointSize =>
    match (Font.new N s.w filename pointSize).1 with
    | Except.ok f =>
      { s with w := (Font.new N s.w filename pointSize).2, fonts := f :: s.fonts }
    | Except.error _ => { s with w := (Font.new N s.w filename pointSize).2 }
  | Op.font fileName pointSize =>
    match s.manager with
    | none => s
    | some fm =>
      match (FontManager.font N s.w fm fileName pointSize).1 with
      | Except.ok f =>
        { w := (FontManager.font N s.w fm fileName pointSize).2.1,
          manager := some (FontManager.font N s.w fm fileName pointSize).2.2,
          fonts := f :: s.fonts }
      | Except.error _ =>
        { w := (FontManager.font N s.w fm fileName pointSize).2.1,
          manager := some (FontManager.font N s.w fm fileName pointSize).2.2,
          fonts := s.fonts }
  | Op.copy i =>
    match s.fonts[i]? with
    | none => s
    | some f => { s with w := (Font.copy s.w f).2, fonts := (Font.copy s.w f).1 :: s.fonts }
  | Op.destroy i =>
    match s.fonts[i]? with
    | none => s
    | some f => { s with w := Font.destroy s.w f, fonts := s.fonts.eraseIdx i }
  | Op.exit =>
    match s.manager with
    | none => s
    | some fm => { s with w := destroyAll s.w (cacheFonts fm.fonts_), manager := none }

/-- The start of a program: no native call made, no control block, an empty
`FontManager`, no `Font` held. -/
def Program.init : Program := ⟨World.empty, some ⟨[]⟩, []⟩

/-- The state after a sequence of operations. -/
def Program.run (N : Native) (s : Program) (ops : List Op) : Program :=
  ops.foldl (Program.step N) s

/-- The `Font` values alive in a program: the client's and the cached ones. -/
def Program.liveFonts (s : Program) : List Font :=
  s.fonts ++
    (match s.manager with
     | some fm => cacheFonts fm.fonts_
     | none => [])

/-- Whether the `Font` value `f` shares the control block `i`. -/
def Font.shares (i : Nat) (f : Font) : Bool := decide (f.font_.pn = i)

/-- The number of live `Font` values sharing the control block `i`. -/
def Program.sharers (s : Program) (i : Nat) : Nat :=
  s.liveFonts.countP (Font.shares i)

/-- The number of calls `TTF_CloseFont (h)` in a history. -/
def closeCount (h : Ptr) (calls : List NativeCall) : Nat :=
  calls.count (NativeCall.TTF_CloseFont h)

/-- Whether a control block owns the handle `h` and has no owner left. -/
def CtrlBlock.releasedWith (h : Ptr) (b : CtrlBlock) : Bool :=
  decide (b.ptr = h) && decide (b.useCount = 0)

/-- The invariant of the control blocks, for `cnt i` live `Font` values
sharing block `i`: no value shares a block not yet created, the use count of
a block is the number of values sharing it, and the calls `TTF_CloseFont (h)`
made are as many as the blocks owning `h` that have no owner left. -/
def WorldInv (w : World) (cnt : Nat → Nat) : Prop :=
  (∀ i, w.blocks.length ≤ i → cnt i = 0) ∧
  (∀ i b, w.blocks[i]? = some b → b.useCount = cnt i) ∧
  (∀ h, closeCount h w.calls = w.blocks.countP (CtrlBlock.releasedWith h))

/-! ## Render mode constructors -/

/-- The constructor `Solid::Solid (color)`: `color_ (color)`. -/
def Solid.new (color : Color) : Solid := ⟨color⟩

/-- The constructor `Shaded::Shaded (fg, bg)`: `fg_ (fg), bg_ (bg)`. -/
def Shaded.new (fg bg : Color) : Shaded := ⟨fg, bg⟩

/-- The constructor `Blended::Blended (color)`: `color_ (color)`. -/
def Blended.new (color : Color) : Blended := ⟨color⟩

/-! ## The statics of the process -/

/-- The constructor `FontManager::FontManager ()`: `fonts_ ()`, then the body
`subsystem::TTF::instance ();`, an exception of which leaves through the
constructor.  `ttf` tells whether the static of `TTF::instance` has been
constructed. -/
def FontManager.new (N : Native) (w : World) (ttf : Bool) :
    Except String FontManager × World × Bool :=
  match (TTF.instance N w ttf).1 with
  | Except.error e => (Except.error e, (TTF.instance N w ttf).2.1, (TTF.instance N w ttf).2.2)
  | Except.ok _ => (Except.ok ⟨[]⟩, (TTF.instance N w ttf).2.1, (TTF.instance N w ttf).2.2)

/-- `FontManager::instance ()`, with the function-local
`static FontManager instance_`: `inst` is the static once constructed.  The
first pass through the declaration runs the constructor; a constructor that
throws leaves the static unconstructed and the exception leaves through
`instance ()`. -/
def FontManager.instance (N : Native) (w : World) (ttf : Bool)
    (inst : Option FontManager) :
    Except String FontManager × World × Bool × Option FontManager :=
  match inst with
  | some fm => (Except.ok fm, w, ttf, some fm)
  | none =>
    match (FontManager.new N w ttf).1 with
    | Except.error e =>
      (Except.error e, (FontManager.new N w ttf).2.1, (FontManager.new N w ttf).2.2, none)
    | Except.ok fm =>
      (Except.ok fm, (FontManager.new N w ttf).2.1, (FontManager.new N w ttf).2.2, some fm)

/-- A process using the `FontManager`: the world, whether the static of
`TTF::instance` is constructed, and the static of `FontManager::instance`
once it is constructed. -/
structure Process where
  w : World
  ttf : Bool
  manager : Option FontManager
  deriving DecidableEq, Repr

/-- The two steps of a client of the `FontManager`. -/
inductive ProcessOp where
  /-- `FontManager::instance ()`. -/
  | managerInstance
  /-- `font (fileName, pointSize)` on the instance obtained. -/
  | managerFont (fileName : String) (pointSize : Int)
  deriving DecidableEq, Repr

/-- One step.  `font` is a member function: without a `FontManager` instance
there is nothing to call it on, and the step changes nothing. -/
def Process.step (N : Native) (s : Process) : ProcessOp → Process
  | ProcessOp.managerInstance =>
    { w := (FontManager.instance N s.w s.ttf s.manager).2.1,
      ttf := (FontManager.instance N s.w s.ttf s.manager).2.2.1,
      manager := (FontManager.instance N s.w s.ttf s.manager).2.2.2 }
  | ProcessOp.managerFont fileName pointSize =>
    match s.manager with
    | none => s
    | some fm =>
      { s with
        w := (FontManager.font N s.w fm fileName pointSize).2.1,
        manager := some (FontManager.font N s.w fm fileName pointSize).2.2 }

/-- The start of a process: no native call made, no static constructed. -/
def Process.init : Process := ⟨World.empty, false, none⟩

/-- The state after a sequence of steps. -/
def Process.run (N : Native) (s : Process) (ops : List ProcessOp) : Process :=
  ops.foldl (Process.step N) s

/-- The `k`-th call of a history is a `TTF_Init` that succeeded: the native
library, asked after the calls before it, returned a value other than -1. -/
def initSucceededAt (N : Native) (calls : List NativeCall) (k : Nat) : Prop :=
  calls[k]? = some NativeCall.TTF_Init ∧ N.TTF_Init (calls.take k) ≠ -1

/-- A history holds a `TTF_Init` that succeeded. -/
def hasInit (N : Native) (calls : List NativeCall) : Prop :=
  ∃ k, k < calls.length ∧ initSucceededAt N calls k

/-- Every `TTF_OpenFont` of a history comes after a `TTF_Init` that
succeeded. -/
def opensPreceded (N : Native) (calls : List NativeCall) : Prop :=
  ∀ j p sz, calls[j]? = some (NativeCall.TTF_OpenFont p sz) →
    ∃ k, k < j ∧ initSucceededAt N calls k

/-- The invariant of a process: the `FontManager` static is constructed
exactly when the `TTF` static is, a constructed `TTF` static has a succeeded
`TTF_Init` behind it, every `TTF_OpenFont` comes after one, and without a
`FontManager` no `TTF_OpenFont` has been called. -/
def ProcessInv (N : Native) (s : Process) : Prop :=
  s.ttf = s.manager.isSome ∧
  (s.ttf = true → hasInit N s.w.calls) ∧
  opensPreceded N s.w.calls ∧
  (s.manager = none → openCount s.w.calls = 0)

/-! ## Handles opened, handles held -/

/-- What one native call adds to the handles opened: the handle a
`TTF_OpenFont` returned, the native library being asked after the history
`before`; nothing for any other call. -/
def openResult (N : Native) (before : List NativeCall) : NativeCall → List Ptr
  | NativeCall.TTF_OpenFont p sz => [N.TTF_OpenFont before p sz]
  | _ => []

/-- The handles returned by the `TTF_OpenFont` calls among `calls`, in the
order of the calls, `before` being the history before them. -/
def openedHandlesFrom (N : Native) (before : List NativeCall) :
    List NativeCall → List Ptr
  | [] => []
  | c :: rest => openResult N before c ++ openedHandlesFrom N (before ++ [c]) rest

/-- The handles returned by the `TTF_OpenFont` calls of a history, one for
each call and in the order of the calls (`NULL` for a call that failed). -/
def openedHandles (N : Native) (calls : List NativeCall) : List Ptr :=
  openedHandlesFrom N [] calls

/-- Whether a control block owns the handle `h` and still has an owner. -/
def CtrlBlock.aliveWith (h : Ptr) (b : CtrlBlock) : Bool :=
  decide (b.ptr = h) && !decide (b.useCount = 0)

/-- The control blocks own, one for one and in order, the handles the
`TTF_OpenFont` calls of the history returned. -/
def HandlesInv (N : Native) (w : World) : Prop :=
  w.blocks.map CtrlBlock.ptr = openedHandles N w.calls

/-- Every block of `l` is still there in `l2`, owning the same pointer. -/
def samePtrs (l l2 : List CtrlBlock) : Prop :=
  ∀ (j : Nat) (b : CtrlBlock), l[j]? = some b →
    ∃ b2 : CtrlBlock, l2[j]? = some b2 ∧ b2.ptr = b.ptr

/-- Every `Font` of `L` shares an existing control block, which owns the
handle the `Font` holds. -/
def FontsInv (w : World) (L : List Font) : Prop :=
  ∀ f ∈ L, ∃ b, w.blocks[f.font_.pn]? = some b ∧ b.ptr = f.font_.px

/-- From `w` to `w2` every block keeps its pointer, and blocks that own the
handles opened still do so. -/
def Grows (N : Native) (w w2 : World) : Prop :=
  samePtrs w.blocks w2.blocks ∧ (HandlesInv N w → HandlesInv N w2)

/-! ## Theorems: constructors, glyph metrics, subsystem singleton -/

/-- C4: the constructor `Font::Font (filename, pointSize)` throws exactly when
`TTF_OpenFont` returns the null handle, the message then being the native
error string current after that call; on a non-null handle it returns a
`Font` whose `operator*` gives exactly that handle. -/
theorem Font_new_throws_iff_open_null (N : Native) (w : World) (filename : String)
    (pointSize : Int) :
    ((∃ e, (Font.new N w filename pointSize).1 = Except.error e) ↔
      N.TTF_OpenFont w.calls filename pointSize = NULL) ∧
    ((Font.new N w filename pointSize).1 =
        Except.error (N.TTF_GetError
          (w.calls ++ [NativeCall.TTF_OpenFont filename pointSize])) ↔
      N.TTF_OpenFont w.calls filename pointSize = NULL) ∧
    (N.TTF_OpenFont w.calls filename pointSize ≠ NULL →
      ∃ f, (Font.new N w filename pointSize).1 = Except.ok f ∧
        f.deref = N.TTF_OpenFont w.calls filename pointSize) := by
  by_cases h : N.TTF_OpenFont w.calls filename pointSize = NULL
  · simp [Font.new, SharedPtr.new, SharedPtr.get, World.call, h]
  · simp [Font.new, SharedPtr.new, SharedPtr.get, World.call, Font.deref, h]

/-- C3 (the code, and the code at the failing input): the constructor of
`Glyph` throws exactly when `TTF_GlyphMetrics` returns 0, the native success
value, and returns a `Glyph` exactly when it returns anything else, the
native failure value -1 included.  So with a native library whose query
succeeds the constructor throws the native error string, and with one whose
query fails with -1 it returns a `Glyph`. -/
theorem Glyph_new_throws_iff_native_returns_zero (N : Native) (w : World) (font : Font)
    (c : Int) :
    ((∃ e, (Glyph.new N w font c).1 = Except.error e) ↔
      (N.TTF_GlyphMetrics w.calls font.deref (toUint16 c)).ret = 0) ∧
    ((∃ g, (Glyph.new N w font c).1 = Except.ok g) ↔
      (N.TTF_GlyphMetrics w.calls font.deref (toUint16 c)).ret ≠ 0) ∧
    (nativeOk.TTF_GlyphMetrics world1.calls font1.deref (toUint16 65)).ret = 0 ∧
    (Glyph.new nativeOk world1 font1 65).1 = Except.error "" ∧
    (nativeFail.TTF_GlyphMetrics world1.calls font1.deref (toUint16 65)).ret = -1 ∧
    (Glyph.new nativeFail world1 font1 65).1 = Except.ok ⟨0, 0, 0, 0, 0⟩ := by
  refine ⟨?_, ?_, rfl, rfl, rfl, rfl⟩
  · by_cases h : (N.TTF_GlyphMetrics w.calls font.deref (toUint16 c)).ret = 0
    · simp [Glyph.new, h]
    · simp [Glyph.new, h]
  · by_cases h : (N.TTF_GlyphMetrics w.calls font.deref (toUint16 c)).ret = 0
    · simp [Glyph.new, h]
    · simp [Glyph.new, h]

/-- C6 (the code at the failing input): the native glyph-metrics query
succeeds on `font1` and the character 65 and reports the metrics
(1, 2, 3, 4, 5), and `font1.glyph (65)` throws: no `Glyph` is yielded. -/
theorem Font_glyph_throws_on_native_success :
    nativeOk.TTF_GlyphMetrics world1.calls font1.deref (toUint16 65) = ⟨0, 1, 2, 3, 4, 5⟩ ∧
    (Font.glyph nativeOk world1 font1 65).1 = Except.error "" ∧
    ¬ ∃ g, (Font.glyph nativeOk world1 font1 65).1 = Except.ok g := by
  refine ⟨rfl, rfl, ?_⟩
  rintro ⟨g, hg⟩
  have h : (Font.glyph nativeOk world1 font1 65).1 = Except.error "" := rfl
  rw [h] at hg
  cases hg

/-- C7: the first `TTF::instance ()` throws exactly when `TTF_Init` returns
-1, the message being the native error string current after that call;
otherwise it makes exactly one native call, `TTF_Init`, returns the instance
and leaves the static constructed, and from then on `instance ()` returns the
instance in any world without any native call. -/
theorem TTF_instance_first_and_later (N : Native) (w : World) :
    ((∃ e, (TTF.instance N w false).1 = Except.error e) ↔ N.TTF_Init w.calls = -1) ∧
    ((TTF.instance N w false).1 =
        Except.error (N.TTF_GetError (w.calls ++ [NativeCall.TTF_Init])) ↔
      N.TTF_Init w.calls = -1) ∧
    (N.TTF_Init w.calls ≠ -1 →
      (TTF.instance N w false).1 = Except.ok ⟨⟩ ∧
      (TTF.instance N w false).2.1.calls = w.calls ++ [NativeCall.TTF_Init] ∧
      (TTF.instance N w false).2.2 = true ∧
      ∀ w2 : World, TTF.instance N w2 (TTF.instance N w false).2.2 =
        (Except.ok ⟨⟩, w2, true)) := by
  by_cases h : N.TTF_Init w.calls = -1
  · simp [TTF.instance, TTF.new, TTF.init, World.call, h]
  · simp [TTF.instance, TTF.new, TTF.init, World.call, h]

/-! ## Theorems: encoding dispatch of `render` and `size` -/

/-- C5 (the code at the failing input): `render<UNICODE>` of a `Solid`, of a
`Shaded` and of a `Blended` mode does not return the surface of
`TTF_RenderUNICODE_Solid`, `TTF_RenderUNICODE_Shaded` or
`TTF_RenderUNICODE_Blended`, which would be surface 7 here: it returns a
default-constructed `Surface` and makes no native call at all. -/
theorem Font_render_UNICODE_not_native :
    (Font.render UNICODE nativeOk world1 font1 "hi" (Solid.mk black)).1 ≠
      Surface.fromNative (nativeOk.render world1.calls RenderFn.TTF_RenderUNICODE_Solid
        font1.deref (RenderArg.text "hi") black.deref2 none) ∧
    (Font.render UNICODE nativeOk world1 font1 "hi" (Shaded.mk black white)).1 ≠
      Surface.fromNative (nativeOk.render world1.calls RenderFn.TTF_RenderUNICODE_Shaded
        font1.deref (RenderArg.text "hi") black.deref2 (some white.deref2)) ∧
    (Font.render UNICODE nativeOk world1 font1 "hi" (Blended.mk black)).1 ≠
      Surface.fromNative (nativeOk.render world1.calls RenderFn.TTF_RenderUNICODE_Blended
        font1.deref (RenderArg.text "hi") black.deref2 none) ∧
    Font.render UNICODE nativeOk world1 font1 "hi" (Solid.mk black) =
      (Surface.default, world1) ∧
    Font.render UNICODE nativeOk world1 font1 "hi" (Shaded.mk black white) =
      (Surface.default, world1) ∧
    Font.render UNICODE nativeOk world1 font1 "hi" (Blended.mk black) =
      (Surface.default, world1) := by
  have h1 : (Font.render UNICODE nativeOk world1 font1 "hi" (Solid.mk black)).1 =
      Surface.default := rfl
  have h2 : (Font.render UNICODE nativeOk world1 font1 "hi" (Shaded.mk black white)).1 =
      Surface.default := rfl
  have h3 : (Font.render UNICODE nativeOk world1 font1 "hi" (Blended.mk black)).1 =
      Surface.default := rfl
  refine ⟨?_, ?_, ?_, rfl, rfl, rfl⟩
  · rw [h1]; intro hc; cases hc
  · rw [h2]; intro hc; cases hc
  · rw [h3]; intro hc; cases hc

/-- The dispatch of `Font::render` as the code has it: for the six
combinations of a render mode with the encodings TEXT and UTF8,
`Font::render<Encoding> (text, mode)` returns the surface of the native render
function for exactly that mode and encoding, called once with the font's
handle, the text and the mode's colours, and the six native functions are
distinct; for the encoding UNICODE every mode returns a default-constructed
`Surface` and makes no native call. -/
theorem Font_render_dispatch (N : Native) (w : World) (font : Font) (text : String)
    (so : Solid) (sh : Shaded) (bl : Blended) :
    Font.render TEXT N w font text so =
      nativeRender N w RenderFn.TTF_RenderText_Solid font (RenderArg.text text)
        so.color_.deref2 none ∧
    Font.render UTF8 N w font text so =
      nativeRender N w RenderFn.TTF_RenderUTF8_Solid font (RenderArg.text text)
        so.color_.deref2 none ∧
    Font.render TEXT N w font text sh =
      nativeRender N w RenderFn.TTF_RenderText_Shaded font (RenderArg.text text)
        sh.fg_.deref2 (some sh.bg_.deref2) ∧
    Font.render UTF8 N w font text sh =
      nativeRender N w RenderFn.TTF_RenderUTF8_Shaded font (RenderArg.text text)
        sh.fg_.deref2 (some sh.bg_.deref2) ∧
    Font.render TEXT N w font text bl =
      nativeRender N w RenderFn.TTF_RenderText_Blended font (RenderArg.text text)
        bl.color_.deref2 none ∧
    Font.render UTF8 N w font text bl =
      nativeRender N w RenderFn.TTF_RenderUTF8_Blended font (RenderArg.text text)
        bl.color_.deref2 none ∧
    [RenderFn.TTF_RenderText_Solid, RenderFn.TTF_RenderUTF8_Solid,
      RenderFn.TTF_RenderText_Shaded, RenderFn.TTF_RenderUTF8_Shaded,
      RenderFn.TTF_RenderText_Blended, RenderFn.TTF_RenderUTF8_Blended].Nodup ∧
    Font.render UNICODE N w font text so = (Surface.default, w) ∧
    Font.render UNICODE N w font text sh = (Surface.default, w) ∧
    Font.render UNICODE N w font text bl = (Surface.default, w) := by
  refine ⟨rfl, rfl, rfl, rfl, rfl, rfl, by decide, rfl, rfl, rfl⟩

/-- C8 (the code at the failing input): `size<UNICODE>` stores neither the
width 10 nor the height 20 that `TTF_SizeUNICODE` computes for the text: both
cells keep their old contents, and no native call is made. -/
theorem Font_size_UNICODE_stores_nothing :
    nativeOk.size world1.calls SizeFn.TTF_SizeUNICODE font1.deref "hi" 0 0 = ⟨0, 10, 20⟩ ∧
    (Font.size UNICODE nativeOk world1 font1 "hi" ⟨0, 0⟩).1.width ≠ 10 ∧
    (Font.size UNICODE nativeOk world1 font1 "hi" ⟨0, 0⟩).1.height ≠ 20 ∧
    (Font.size UNICODE nativeOk world1 font1 "hi" ⟨0, 0⟩).2.calls = world1.calls := by
  refine ⟨rfl, by decide, by decide, rfl⟩

/-- The dispatch of `Font::size` as the code has it: for the encodings TEXT
and UTF8, `Font::size<Encoding> (text, height, width)` calls the native size function
of that encoding once on the font's handle and the text, and stores the
native width in `*width` and the native height in `*height`; for the encoding
UNICODE it leaves both cells unchanged and makes no native call. -/
theorem Font_size_dispatch (N : Native) (w : World) (font : Font) (text : String)
    (o : SizeOut) :
    (Font.size TEXT N w font text o).1.width =
      (N.size w.calls SizeFn.TTF_SizeText font.deref text o.width o.height).w ∧
    (Font.size TEXT N w font text o).1.height =
      (N.size w.calls SizeFn.TTF_SizeText font.deref text o.width o.height).h ∧
    (Font.size TEXT N w font text o).2 =
      w.call (NativeCall.size SizeFn.TTF_SizeText font.deref text) ∧
    (Font.size UTF8 N w font text o).1.width =
      (N.size w.calls SizeFn.TTF_SizeUTF8 font.deref text o.width o.height).w ∧
    (Font.size UTF8 N w font text o).1.height =
      (N.size w.calls SizeFn.TTF_SizeUTF8 font.deref text o.width o.height).h ∧
    (Font.size UTF8 N w font text o).2 =
      w.call (NativeCall.size SizeFn.TTF_SizeUTF8 font.deref text) ∧
    Font.size UNICODE N w font text o = (o, w) := by
  refine ⟨rfl, rfl, rfl, rfl, rfl, rfl, rfl⟩

/-! ## Lemmas: the maps of the font cache -/

theorem mapFind_mapInsert_of_none {κ ν : Type} [DecidableEq κ] (m : List (κ × ν))
    (k k2 : κ) (v : ν) (h : mapFind m k = none) :
    mapFind (mapInsert m k v) k2 = if k2 = k then some v else mapFind m k2 := by
  induction m with
  | nil =>
    by_cases hk : k = k2
    · subst hk; simp [mapInsert, mapFind]
    · have hk2 : ¬ k2 = k := fun e => hk e.symm
      simp [mapInsert, mapFind, hk, hk2]
  | cons e rest ih =>
    obtain ⟨k0, v0⟩ := e
    by_cases h0 : k0 = k
    · simp [mapFind, h0] at h
    · simp only [mapFind, h0, if_false] at h
      simp only [mapInsert, h0, if_false, mapFind]
      by_cases h1 : k0 = k2
      · have hk2 : ¬ k2 = k := fun e => h0 (h1.trans e)
        simp [h1, hk2]
      · simp [h1, ih h]

theorem mapFind_mapModify {κ ν : Type} [DecidableEq κ] (m : List (κ × ν))
    (k k2 : κ) (g : ν → ν) :
    mapFind (mapModify m k g) k2 =
      if k2 = k then (mapFind m k).map g else mapFind m k2 := by
  induction m with
  | nil => simp [mapModify, mapFind]
  | cons e rest ih =>
    obtain ⟨k0, v0⟩ := e
    by_cases h0 : k0 = k
    · subst h0
      by_cases h1 : k0 = k2
      · subst h1; simp [mapModify, mapFind]
      · have h2 : ¬ k2 = k0 := fun e => h1 e.symm
        simp [mapModify, mapFind, h1, h2]
    · by_cases h1 : k0 = k2
      · have h2 : ¬ k2 = k := fun e => h0 (h1.trans e)
        simp [mapModify, mapFind, h0, h1, h2]
      · simp [mapModify, mapFind, h0, h1, ih]

theorem length_mapInsert_of_none {κ ν : Type} [DecidableEq κ] (m : List (κ × ν))
    (k : κ) (v : ν) (h : mapFind m k = none) :
    (mapInsert m k v).length = m.length + 1 := by
  induction m with
  | nil => simp [mapInsert]
  | cons e rest ih =>
    obtain ⟨k0, v0⟩ := e
    by_cases h0 : k0 = k
    · simp [mapFind, h0] at h
    · simp only [mapFind, h0, if_false] at h
      simp [mapInsert, h0, ih h]

theorem entrySum_mapModify {ν : Type} (m : List (String × List ν)) (k : String)
    (g : List ν → List ν) (sm : List ν) (h : mapFind m k = some sm)
    (hg : (g sm).length = sm.length + 1) :
    ((mapModify m k g).map (fun e => e.2.length)).sum =
      (m.map (fun e => e.2.length)).sum + 1 := by
  induction m with
  | nil => simp [mapFind] at h
  | cons e rest ih =>
    obtain ⟨k0, v0⟩ := e
    by_cases h0 : k0 = k
    · simp only [mapFind, h0, if_true, Option.some.injEq] at h
      subst h
      simp [mapModify, h0, hg]
      omega
    · simp only [mapFind, h0, if_false] at h
      simp [mapModify, h0, ih h]
      omega

theorem entrySum_mapInsert {ν : Type} (m : List (String × List ν)) (k : String)
    (x : ν) (h : mapFind m k = none) :
    ((mapInsert m k [x]).map (fun e => e.2.length)).sum =
      (m.map (fun e => e.2.length)).sum + 1 := by
  induction m with
  | nil => simp [mapInsert]
  | cons e rest ih =>
    obtain ⟨k0, v0⟩ := e
    by_cases h0 : k0 = k
    · simp [mapFind, h0] at h
    · simp only [mapFind, h0, if_false] at h
      simp [mapInsert, h0, ih h]
      omega

/-! ## Lemmas: `Font` construction and copy -/

theorem Font_copy_fst (w : World) (f : Font) : (Font.copy w f).1 = f := rfl

theorem Font_copy_calls (w : World) (f : Font) : (Font.copy w f).2.calls = w.calls := by
  simp only [Font.copy, SharedPtr.copy]
  split <;> rfl

theorem Font_new_ok (N : Native) (w : World) (p : String) (s : Int) (f : Font)
    (h : (Font.new N w p s).1 = Except.ok f) :
    f.deref = N.TTF_OpenFont w.calls p s ∧ f.deref ≠ NULL ∧
    (Font.new N w p s).2.calls = w.calls ++ [NativeCall.TTF_OpenFont p s] := by
  by_cases h0 : N.TTF_OpenFont w.calls p s = NULL
  · simp [Font.new, SharedPtr.new, SharedPtr.get, World.call, h0] at h
  · simp only [Font.new, SharedPtr.new, SharedPtr.get, World.call, h0, if_false,
      Except.ok.injEq] at h
    subst h
    simp [Font.new, SharedPtr.new, SharedPtr.get, World.call, Font.deref, h0]

/-! ## Lemmas: the three branches of `FontManager::font` -/

theorem font_hit (N : Native) (w : World) (fm : FontManager) (p : String) (s : Int)
    (c : Font) (h : fm.lookup p s = some c) :
    FontManager.font N w fm p s = (Except.ok c, (Font.copy w c).2, fm) := by
  unfold FontManager.lookup at h
  unfold FontManager.font
  cases hm : mapFind fm.fonts_ p with
  | none => simp [hm] at h
  | some sm =>
    simp only [hm] at h
    simp only [h]
    rfl

theorem font_miss_error (N : Native) (w : World) (fm : FontManager) (p : String)
    (s : Int) (e : String) (h : fm.lookup p s = none)
    (hn : (Font.new N w p s).1 = Except.error e) :
    FontManager.font N w fm p s = (Except.error e, (Font.new N w p s).2, fm) := by
  unfold FontManager.lookup at h
  unfold FontManager.font
  cases hm : mapFind fm.fonts_ p with
  | none => simp only [hn]
  | some sm =>
    simp only [hm] at h
    simp only [h, hn]

theorem font_miss_ok (N : Native) (w : World) (fm : FontManager) (p : String)
    (s : Int) (f : Font) (h : fm.lookup p s = none)
    (hn : (Font.new N w p s).1 = Except.ok f) :
    (FontManager.font N w fm p s).1 = Except.ok f ∧
    (FontManager.font N w fm p s).2.1 = (Font.copy (Font.new N w p s).2 f).2 ∧
    (∀ p2 s2, (FontManager.font N w fm p s).2.2.lookup p2 s2 =
      if p2 = p ∧ s2 = s then some f else fm.lookup p2 s2) ∧
    (FontManager.font N w fm p s).2.2.entryCount = fm.entryCount + 1 := by
  unfold FontManager.lookup at h
  unfold FontManager.font
  cases hm : mapFind fm.fonts_ p with
  | none =>
    simp only [hn]
    refine ⟨trivial, trivial, ?_, ?_⟩
    · intro p2 s2
      simp only [FontManager.lookup, mapFind_mapInsert_of_none _ _ _ _ hm, Font_copy_fst]
      by_cases hp : p2 = p
      · subst hp
        simp only [if_true, true_and, hm]
        by_cases hs : s2 = s
        · subst hs; simp [mapInsert, mapFind]
        · have hs2 : ¬ s = s2 := fun e => hs e.symm
          simp [mapInsert, mapFind, hs, hs2]
      · simp [hp]
    · simp only [FontManager.entryCount]
      exact entrySum_mapInsert _ _ _ hm
  | some sm =>
    simp only [hm] at h
    simp only [h, hn]
    refine ⟨trivial, trivial, ?_, ?_⟩
    · intro p2 s2
      simp only [FontManager.lookup, mapFind_mapModify, Font_copy_fst]
      by_cases hp : p2 = p
      · subst hp
        simp only [if_true, true_and, hm, Option.map_some']
        rw [mapFind_mapInsert_of_none _ _ _ _ h]
      · simp [hp]
    · simp only [FontManager.entryCount]
      exact entrySum_mapModify _ _ _ sm hm (length_mapInsert_of_none _ _ _ h)

/-! ## Theorems: the font cache -/

theorem font_ok_cached (N : Native) (w : World) (fm : FontManager) (p : String)
    (s : Int) (f : Font) (h : (FontManager.font N w fm p s).1 = Except.ok f) :
    (FontManager.font N w fm p s).2.2.lookup p s = some f := by
  cases hl : fm.lookup p s with
  | some c =>
    rw [font_hit N w fm p s c hl] at h ⊢
    simp only [Except.ok.injEq] at h
    subst h
    exact hl
  | none =>
    cases hn : (Font.new N w p s).1 with
    | error e =>
      rw [font_miss_error N w fm p s e hl hn] at h
      cases h
    | ok f2 =>
      obtain ⟨h1, _, h3, _⟩ := font_miss_ok N w fm p s f2 hl hn
      rw [h1] at h
      simp only [Except.ok.injEq] at h
      subst h
      simp [h3]

theorem font_keeps_entry (N : Native) (w : World) (fm : FontManager) (p : String)
    (s : Int) (p2 : String) (s2 : Int) (c : Font) (h : fm.lookup p2 s2 = some c) :
    (FontManager.font N w fm p s).2.2.lookup p2 s2 = some c := by
  cases hl : fm.lookup p s with
  | some c2 => rw [font_hit N w fm p s c2 hl]; exact h
  | none =>
    cases hn : (Font.new N w p s).1 with
    | error e => rw [font_miss_error N w fm p s e hl hn]; exact h
    | ok f2 =>
      obtain ⟨_, _, h3, _⟩ := font_miss_ok N w fm p s f2 hl hn
      rw [h3]
      by_cases hk : p2 = p ∧ s2 = s
      · obtain ⟨hp, hs⟩ := hk
        subst hp; subst hs
        rw [hl] at h
        cases h
      · simp [hk, h]

theorem font_entryCount_le (N : Native) (w : World) (fm : FontManager) (p : String)
    (s : Int) : fm.entryCount ≤ (FontManager.font N w fm p s).2.2.entryCount := by
  cases hl : fm.lookup p s with
  | some c2 => rw [font_hit N w fm p s c2 hl]
  | none =>
    cases hn : (Font.new N w p s).1 with
    | error e => rw [font_miss_error N w fm p s e hl hn]
    | ok f2 =>
      obtain ⟨_, _, _, h4⟩ := font_miss_ok N w fm p s f2 hl hn
      omega

theorem fontCalls_keeps_entry (N : Native) (between : List (String × Int)) (w : World)
    (fm : FontManager) (p2 : String) (s2 : Int) (c : Font)
    (h : fm.lookup p2 s2 = some c) :
    (FontManager.fontCalls N w fm between).2.lookup p2 s2 = some c := by
  induction between generalizing w fm with
  | nil => exact h
  | cons e rest ih =>
    obtain ⟨p, s⟩ := e
    exact ih _ _ (font_keeps_entry N w fm p s p2 s2 c h)

/-- C1: when `font (p, s)` returns a `Font`, then after any run of further
`font` calls on the same manager, returning or throwing, `font (p, s)` again
returns a `Font` with the same native handle, and that call makes no native
call, so none of `TTF_OpenFont`, and leaves the cache as it is. -/
theorem font_again_returns_cached (N : Native) (w : World) (fm : FontManager)
    (p : String) (s : Int) (f : Font) (between : List (String × Int))
    (h : (FontManager.font N w fm p s).1 = Except.ok f) :
    ∃ f2,
      (FontManager.font N
        (FontManager.fontCalls N (FontManager.font N w fm p s).2.1
          (FontManager.font N w fm p s).2.2 between).1
        (FontManager.fontCalls N (FontManager.font N w fm p s).2.1
          (FontManager.font N w fm p s).2.2 between).2 p s).1 = Except.ok f2 ∧
      f2.deref = f.deref ∧
      (FontManager.font N
        (FontManager.fontCalls N (FontManager.font N w fm p s).2.1
          (FontManager.font N w fm p s).2.2 between).1
        (FontManager.fontCalls N (FontManager.font N w fm p s).2.1
          (FontManager.font N w fm p s).2.2 between).2 p s).2.1.calls =
        (FontManager.fontCalls N (FontManager.font N w fm p s).2.1
          (FontManager.font N w fm p s).2.2 between).1.calls ∧
      openCount (FontManager.font N
        (FontManager.fontCalls N (FontManager.font N w fm p s).2.1
          (FontManager.font N w fm p s).2.2 between).1
        (FontManager.fontCalls N (FontManager.font N w fm p s).2.1
          (FontManager.font N w fm p s).2.2 between).2 p s).2.1.calls =
        openCount (FontManager.fontCalls N (FontManager.font N w fm p s).2.1
          (FontManager.font N w fm p s).2.2 between).1.calls := by
  have hc := fontCalls_keeps_entry N between (FontManager.font N w fm p s).2.1
    (FontManager.font N w fm p s).2.2 p s f (font_ok_cached N w fm p s f h)
  rw [font_hit N _ _ p s f hc]
  refine ⟨f, rfl, rfl, ?_, ?_⟩
  · exact Font_copy_calls _ _
  · exact congrArg openCount (Font_copy_calls _ _)

/-- Witness of C1: on an empty cache with a native library that opens every
font, `font ("a.ttf", 12)` returns a `Font`, and after a `font ("b.ttf", 12)`
and a `font ("a.ttf", 14)` the call `font ("a.ttf", 12)` returns the same
handle without a native call. -/
theorem font_again_returns_cached_witness :
    (FontManager.font nativeOk World.empty ⟨[]⟩ "a.ttf" 12).1 = Except.ok font1 ∧
    ∃ f2,
      (FontManager.font nativeOk
        (FontManager.fontCalls nativeOk
          (FontManager.font nativeOk World.empty ⟨[]⟩ "a.ttf" 12).2.1
          (FontManager.font nativeOk World.empty ⟨[]⟩ "a.ttf" 12).2.2
          [("b.ttf", 12), ("a.ttf", 14)]).1
        (FontManager.fontCalls nativeOk
          (FontManager.font nativeOk World.empty ⟨[]⟩ "a.ttf" 12).2.1
          (FontManager.font nativeOk World.empty ⟨[]⟩ "a.ttf" 12).2.2
          [("b.ttf", 12), ("a.ttf", 14)]).2 "a.ttf" 12).1 = Except.ok f2 ∧
      f2.deref = font1.deref ∧
      (FontManager.font nativeOk
        (FontManager.fontCalls nativeOk
          (FontManager.font nativeOk World.empty ⟨[]⟩ "a.ttf" 12).2.1
          (FontManager.font nativeOk World.empty ⟨[]⟩ "a.ttf" 12).2.2
          [("b.ttf", 12), ("a.ttf", 14)]).1
        (FontManager.fontCalls nativeOk
          (FontManager.font nativeOk World.empty ⟨[]⟩ "a.ttf" 12).2.1
          (FontManager.font nativeOk World.empty ⟨[]⟩ "a.ttf" 12).2.2
          [("b.ttf", 12), ("a.ttf", 14)]).2 "a.ttf" 12).2.1.calls =
        (FontManager.fontCalls nativeOk
          (FontManager.font nativeOk World.empty ⟨[]⟩ "a.ttf" 12).2.1
          (FontManager.font nativeOk World.empty ⟨[]⟩ "a.ttf" 12).2.2
          [("b.ttf", 12), ("a.ttf", 14)]).1.calls ∧
      openCount (FontManager.font nativeOk
        (FontManager.fontCalls nativeOk
          (FontManager.font nativeOk World.empty ⟨[]⟩ "a.ttf" 12).2.1
          (FontManager.font nativeOk World.empty ⟨[]⟩ "a.ttf" 12).2.2
          [("b.ttf", 12), ("a.ttf", 14)]).1
        (FontManager.fontCalls nativeOk
          (FontManager.font nativeOk World.empty ⟨[]⟩ "a.ttf" 12).2.1
          (FontManager.font nativeOk World.empty ⟨[]⟩ "a.ttf" 12).2.2
          [("b.ttf", 12), ("a.ttf", 14)]).2 "a.ttf" 12).2.1.calls =
        openCount (FontManager.fontCalls nativeOk
          (FontManager.font nativeOk World.empty ⟨[]⟩ "a.ttf" 12).2.1
          (FontManager.font nativeOk World.empty ⟨[]⟩ "a.ttf" 12).2.2
          [("b.ttf", 12), ("a.ttf", 14)]).1.calls :=
  ⟨rfl, font_again_returns_cached nativeOk World.empty ⟨[]⟩ "a.ttf" 12 font1
    [("b.ttf", 12), ("a.ttf", 14)] rfl⟩

/-- C2: a call `font (p, s)`, whether it returns or throws, keeps every cache
entry: a key `(p2, s2)` that was mapped to a `Font` before the call is mapped
to the same `Font`, hence the same handle, after it, and the number of cached
entries does not decrease. -/
theorem font_never_evicts (N : Native) (w : World) (fm : FontManager) (p : String)
    (s : Int) :
    (∀ p2 s2 c, fm.lookup p2 s2 = some c →
      (FontManager.font N w fm p s).2.2.lookup p2 s2 = some c) ∧
    fm.entryCount ≤ (FontManager.font N w fm p s).2.2.entryCount :=
  ⟨fun p2 s2 c h => font_keeps_entry N w fm p s p2 s2 c h, font_entryCount_le N w fm p s⟩

/-- C10: on a cache with no entry for `(p, s)`, whatever else it holds, a
`font (p, s)` that returns a `Font` makes exactly one native call,
`TTF_OpenFont (p, s)`, returns the handle that call gave, leaves the cache
mapping `(p, s)` to a `Font` with the returned handle, has grown the entry
count by exactly one, and has left the entry of every other key as it was. -/
theorem font_miss_adds_exactly_one (N : Native) (w : World) (fm : FontManager)
    (p : String) (s : Int) (f : Font) (hmiss : fm.lookup p s = none)
    (hok : (FontManager.font N w fm p s).1 = Except.ok f) :
    (FontManager.font N w fm p s).2.1.calls =
      w.calls ++ [NativeCall.TTF_OpenFont p s] ∧
    openCount (FontManager.font N w fm p s).2.1.calls = openCount w.calls + 1 ∧
    f.deref = N.TTF_OpenFont w.calls p s ∧
    (∃ c, (FontManager.font N w fm p s).2.2.lookup p s = some c ∧ c.deref = f.deref) ∧
    (FontManager.font N w fm p s).2.2.entryCount = fm.entryCount + 1 ∧
    ∀ p2 s2, ¬ (p2 = p ∧ s2 = s) →
      (FontManager.font N w fm p s).2.2.lookup p2 s2 = fm.lookup p2 s2 := by
  cases hn : (Font.new N w p s).1 with
  | error e =>
    rw [font_miss_error N w fm p s e hmiss hn] at hok
    cases hok
  | ok f2 =>
    obtain ⟨h1, h2, h3, h4⟩ := font_miss_ok N w fm p s f2 hmiss hn
    rw [h1] at hok
    simp only [Except.ok.injEq] at hok
    subst hok
    obtain ⟨n1, _, n3⟩ := Font_new_ok N w p s f2 hn
    have hcalls : (FontManager.font N w fm p s).2.1.calls =
        w.calls ++ [NativeCall.TTF_OpenFont p s] := by
      rw [h2, Font_copy_calls, n3]
    refine ⟨hcalls, ?_, n1, ⟨f2, ?_, rfl⟩, h4, ?_⟩
    · rw [hcalls]
      simp [openCount, List.countP_append]
    · rw [h3]; simp
    · intro p2 s2 hne
      rw [h3]; simp [hne]

/-- Witness of C10: the cache holds `"a.ttf"` under the size 12 only, and
`font ("a.ttf", 14)` succeeds with the native library that opens every font. -/
theorem font_miss_adds_exactly_one_witness :
    manager1.lookup "a.ttf" 14 = none ∧
    (FontManager.font nativeOk world1 manager1 "a.ttf" 14).1 = Except.ok ⟨⟨2, 1⟩⟩ ∧
    (FontManager.font nativeOk world1 manager1 "a.ttf" 14).2.1.calls =
      world1.calls ++ [NativeCall.TTF_OpenFont "a.ttf" 14] ∧
    openCount (FontManager.font nativeOk world1 manager1 "a.ttf" 14).2.1.calls =
      openCount world1.calls + 1 ∧
    (⟨⟨2, 1⟩⟩ : Font).deref = nativeOk.TTF_OpenFont world1.calls "a.ttf" 14 ∧
    (∃ c, (FontManager.font nativeOk world1 manager1 "a.ttf" 14).2.2.lookup "a.ttf" 14 =
      some c ∧ c.deref = (⟨⟨2, 1⟩⟩ : Font).deref) ∧
    (FontManager.font nativeOk world1 manager1 "a.ttf" 14).2.2.entryCount =
      manager1.entryCount + 1 ∧
    ∀ p2 s2, ¬ (p2 = "a.ttf" ∧ s2 = 14) →
      (FontManager.font nativeOk world1 manager1 "a.ttf" 14).2.2.lookup p2 s2 =
        manager1.lookup p2 s2 :=
  ⟨rfl, rfl, font_miss_adds_exactly_one nativeOk world1 manager1 "a.ttf" 14 ⟨⟨2, 1⟩⟩ rfl rfl⟩

/-! ## Lemmas: the control blocks under `new`, `copy` and `release` -/

theorem countP_set_of_getElem? {α : Type} (p : α → Bool) (l : List α) (i : Nat)
    (b b2 : α) (h : l[i]? = some b) :
    (l.set i b2).countP p + (if p b then 1 else 0) =
      l.countP p + (if p b2 then 1 else 0) := by
  induction l generalizing i with
  | nil => simp at h
  | cons x xs ih =>
    cases i with
    | zero =>
      simp only [List.getElem?_cons_zero, Option.some.injEq] at h
      subst h
      simp only [List.set_cons_zero, List.countP_cons]
      omega
    | succ j =>
      simp only [List.getElem?_cons_succ] at h
      have := ih j h
      simp only [List.set_cons_succ, List.countP_cons]
      omega

theorem closeCount_append_single (h : Ptr) (calls : List NativeCall) (c : NativeCall) :
    closeCount h (calls ++ [c]) =
      closeCount h calls + (if c = NativeCall.TTF_CloseFont h then 1 else 0) := by
  simp only [closeCount, List.count_append, List.count_singleton, beq_iff_eq]

theorem WorldInv_call (w : World) (cnt : Nat → Nat) (c : NativeCall)
    (hinv : WorldInv w cnt) (hc : ∀ h, c ≠ NativeCall.TTF_CloseFont h) :
    WorldInv (w.call c) cnt := by
  obtain ⟨h1, h2, h3⟩ := hinv
  refine ⟨h1, h2, ?_⟩
  intro h
  simp only [World.call, closeCount_append_single, hc h, if_false, Nat.add_zero]
  exact h3 h

theorem WorldInv_new (w : World) (cnt cnt2 : Nat → Nat) (p : Ptr)
    (hinv : WorldInv w cnt)
    (hcnt : ∀ i, cnt2 i = cnt i + (if w.blocks.length = i then 1 else 0)) :
    WorldInv (SharedPtr.new w p).2 cnt2 := by
  obtain ⟨h1, h2, h3⟩ := hinv
  refine ⟨?_, ?_, ?_⟩
  · intro i hi
    simp only [SharedPtr.new, List.length_append, List.length_singleton] at hi
    have hne : ¬ w.blocks.length = i := by omega
    rw [hcnt, if_neg hne, h1 i (by omega)]
  · intro i b hb
    simp only [SharedPtr.new, List.getElem?_append] at hb
    by_cases hi : i < w.blocks.length
    · simp only [hi, if_true] at hb
      have hne : ¬ w.blocks.length = i := by omega
      rw [hcnt, if_neg hne, Nat.add_zero]
      exact h2 i b hb
    · simp only [hi, if_false] at hb
      by_cases he : w.blocks.length = i
      · subst he
        simp only [Nat.sub_self, List.getElem?_cons_zero, Option.some.injEq] at hb
        subst hb
        rw [hcnt, if_pos rfl, h1 _ (Nat.le_refl _)]
      · have hpos : 0 < i - w.blocks.length := by omega
        obtain ⟨k, hk⟩ := Nat.exists_eq_succ_of_ne_zero (Nat.pos_iff_ne_zero.mp hpos)
        rw [hk] at hb
        simp at hb
  · intro h
    simp only [SharedPtr.new, List.countP_append, List.countP_cons, List.countP_nil,
      CtrlBlock.releasedWith]
    simpa using h3 h

theorem WorldInv_copy (w : World) (cnt cnt2 : Nat → Nat) (sp : SharedPtr)
    (hinv : WorldInv w cnt) (hpos : 0 < cnt sp.pn)
    (hcnt : ∀ i, cnt2 i = cnt i + (if sp.pn = i then 1 else 0)) :
    WorldInv (SharedPtr.copy w sp).2 cnt2 := by
  obtain ⟨h1, h2, h3⟩ := hinv
  simp only [SharedPtr.copy]
  cases hb : w.blocks[sp.pn]? with
  | none =>
    have hlen : w.blocks.length ≤ sp.pn := by
      rcases Nat.lt_or_ge sp.pn w.blocks.length with hlt | hge
      · rw [List.getElem?_eq_getElem hlt] at hb; cases hb
      · exact hge
    have := h1 _ hlen
    omega
  | some b =>
    have hlt : sp.pn < w.blocks.length := by
      rcases Nat.lt_or_ge sp.pn w.blocks.length with hlt | hge
      · exact hlt
      · rw [List.getElem?_eq_none hge] at hb; cases hb
    have hbu := h2 _ _ hb
    refine ⟨?_, ?_, ?_⟩
    · intro i hi
      simp only [List.length_set] at hi
      have hne : ¬ sp.pn = i := by omega
      rw [hcnt, if_neg hne, h1 i hi]
    · intro i b2 hb2
      simp only [List.getElem?_set] at hb2
      by_cases he : sp.pn = i
      · simp only [he, if_true] at hb2
        subst he
        simp only [hlt, if_true, Option.some.injEq] at hb2
        subst hb2
        simp only [hcnt, if_true]
        omega
      · simp only [he, if_false] at hb2
        rw [hcnt, if_neg he, Nat.add_zero]
        exact h2 i b2 hb2
    · intro h
      have hset := countP_set_of_getElem? (CtrlBlock.releasedWith h) w.blocks sp.pn b
        { b with useCount := b.useCount + 1 } hb
      have hf1 : CtrlBlock.releasedWith h b = false := by
        simp only [CtrlBlock.releasedWith, Bool.and_eq_false_iff, decide_eq_false_iff_not]
        right; omega
      have hf2 : CtrlBlock.releasedWith h { b with useCount := b.useCount + 1 } = false := by
        simp [CtrlBlock.releasedWith]
      simp only [hf1, hf2, Bool.false_eq_true, if_false, Nat.add_zero] at hset
      simp only [hset]
      exact h3 h

theorem WorldInv_release (w : World) (cnt cnt2 : Nat → Nat) (sp : SharedPtr)
    (hinv : WorldInv w cnt) (hpos : 0 < cnt sp.pn)
    (hcnt : ∀ i, cnt2 i = cnt i - (if sp.pn = i then 1 else 0)) :
    WorldInv (SharedPtr.release w sp) cnt2 := by
  obtain ⟨h1, h2, h3⟩ := hinv
  simp only [SharedPtr.release]
  cases hb : w.blocks[sp.pn]? with
  | none =>
    have hlen : w.blocks.length ≤ sp.pn := by
      rcases Nat.lt_or_ge sp.pn w.blocks.length with hlt | hge
      · rw [List.getElem?_eq_getElem hlt] at hb; cases hb
      · exact hge
    have := h1 _ hlen
    omega
  | some b =>
    have hlt : sp.pn < w.blocks.length := by
      rcases Nat.lt_or_ge sp.pn w.blocks.length with hlt | hge
      · exact hlt
      · rw [List.getElem?_eq_none hge] at hb; cases hb
    have hbu := h2 _ _ hb
    have h0 : ¬ b.useCount = 0 := by omega
    simp only [h0, if_false]
    have hf1 : ∀ h, CtrlBlock.releasedWith h b = false := by
      intro h
      simp only [CtrlBlock.releasedWith, Bool.and_eq_false_iff, decide_eq_false_iff_not]
      right; exact h0
    by_cases hone : b.useCount = 1
    · simp only [hone, if_true]
      refine ⟨?_, ?_, ?_⟩
      · intro i hi
        simp only [List.length_set] at hi
        rw [hcnt, h1 i hi, Nat.zero_sub]
      · intro i b2 hb2
        simp only [List.getElem?_set] at hb2
        by_cases he : sp.pn = i
        · simp only [he, if_true] at hb2
          subst he
          simp only [hlt, if_true, Option.some.injEq] at hb2
          subst hb2
          simp only [hcnt, if_true]
          omega
        · simp only [he, if_false] at hb2
          rw [hcnt, if_neg he, Nat.sub_zero]
          exact h2 i b2 hb2
      · intro h
        have hset := countP_set_of_getElem? (CtrlBlock.releasedWith h) w.blocks sp.pn b
          { b with useCount := 0 } hb
        simp only [hf1 h, Bool.false_eq_true, if_false, Nat.add_zero] at hset
        rw [closeCount_append_single, hset, h3 h]
        simp [CtrlBlock.releasedWith]
    · simp only [hone, if_false]
      refine ⟨?_, ?_, ?_⟩
      · intro i hi
        simp only [List.length_set] at hi
        rw [hcnt, h1 i hi, Nat.zero_sub]
      · intro i b2 hb2
        simp only [List.getElem?_set] at hb2
        by_cases he : sp.pn = i
        · simp only [he, if_true] at hb2
          subst he
          simp only [hlt, if_true, Option.some.injEq] at hb2
          subst hb2
          simp only [hcnt, if_true]
          omega
        · simp only [he, if_false] at hb2
          rw [hcnt, if_neg he, Nat.sub_zero]
          exact h2 i b2 hb2
      · intro h
        have hset := countP_set_of_getElem? (CtrlBlock.releasedWith h) w.blocks sp.pn b
          { b with useCount := b.useCount - 1 } hb
        have hf2 : CtrlBlock.releasedWith h { b with useCount := b.useCount - 1 } = false := by
          simp only [CtrlBlock.releasedWith, Bool.and_eq_false_iff, decide_eq_false_iff_not]
          right; omega
        simp only [hf1 h, hf2, Bool.false_eq_true, if_false, Nat.add_zero] at hset
        simp only [hset]
        exact h3 h

/-! ## Lemmas: the invariant under the operations on `Font` values -/

theorem Font_new_inv_ok (N : Native) (w : World) (cnt cnt2 : Nat → Nat) (p : String)
    (s : Int) (f : Font) (hinv : WorldInv w cnt)
    (h : (Font.new N w p s).1 = Except.ok f)
    (hcnt : ∀ i, cnt2 i = cnt i + (if f.font_.pn = i then 1 else 0)) :
    WorldInv (Font.new N w p s).2 cnt2 := by
  have hw1 : WorldInv (w.call (NativeCall.TTF_OpenFont p s)) cnt :=
    WorldInv_call w cnt _ hinv (fun h => by simp)
  by_cases h0 : N.TTF_OpenFont w.calls p s = NULL
  · simp [Font.new, SharedPtr.new, SharedPtr.get, World.call, h0] at h
  · simp only [Font.new, SharedPtr.new, SharedPtr.get, World.call, h0, if_false,
      Except.ok.injEq] at h
    subst h
    simp only [Font.new, SharedPtr.get, SharedPtr.new, h0, if_false]
    exact WorldInv_new _ cnt cnt2 _ hw1 hcnt

theorem Font_new_inv_error (N : Native) (w : World) (cnt : Nat → Nat) (p : String)
    (s : Int) (e : String) (hinv : WorldInv w cnt)
    (h : (Font.new N w p s).1 = Except.error e) :
    WorldInv (Font.new N w p s).2 cnt := by
  have hw1 : WorldInv (w.call (NativeCall.TTF_OpenFont p s)) cnt :=
    WorldInv_call w cnt _ hinv (fun h => by simp)
  by_cases h0 : N.TTF_OpenFont w.calls p s = NULL
  · have hw2 := WorldInv_new _ cnt (fun i => cnt i + (if w.blocks.length = i then 1 else 0))
      (N.TTF_OpenFont w.calls p s) hw1 (fun i => rfl)
    have hw3 := WorldInv_call _ _ NativeCall.TTF_GetError hw2 (fun h => by simp)
    rw [h0] at hw3
    simp only [Font.new, SharedPtr.get, SharedPtr.new, h0, if_true]
    refine WorldInv_release _ _ cnt _ hw3 ?_ ?_
    · simp [World.call]
    · intro i
      simp only [World.call]
      omega
  · simp [Font.new, SharedPtr.new, SharedPtr.get, World.call, h0] at h

theorem Font_copy_inv (w : World) (cnt cnt2 : Nat → Nat) (f : Font)
    (hinv : WorldInv w cnt) (hpos : 0 < cnt f.font_.pn)
    (hcnt : ∀ i, cnt2 i = cnt i + (if f.font_.pn = i then 1 else 0)) :
    WorldInv (Font.copy w f).2 cnt2 :=
  WorldInv_copy w cnt cnt2 f.font_ hinv hpos hcnt

theorem Font_destroy_inv (w : World) (cnt cnt2 : Nat → Nat) (f : Font)
    (hinv : WorldInv w cnt) (hpos : 0 < cnt f.font_.pn)
    (hcnt : ∀ i, cnt2 i = cnt i - (if f.font_.pn = i then 1 else 0)) :
    WorldInv (Font.destroy w f) cnt2 :=
  WorldInv_release w cnt cnt2 f.font_ hinv hpos hcnt

theorem shares_ite (i : Nat) (f : Font) :
    (if Font.shares i f = true then 1 else 0) = (if f.font_.pn = i then 1 else 0) := by
  simp [Font.shares]

theorem destroyAll_inv (L : List Font) (w : World) (cnt base : Nat → Nat)
    (hinv : WorldInv w cnt)
    (hcnt : ∀ i, cnt i = base i + L.countP (Font.shares i)) :
    WorldInv (destroyAll w L) base := by
  induction L generalizing w cnt with
  | nil =>
    have : cnt = base := funext (fun i => by simpa using hcnt i)
    subst this
    exact hinv
  | cons f rest ih =>
    simp only [destroyAll]
    refine ih (Font.destroy w f) (fun i => base i + rest.countP (Font.shares i)) ?_
      (fun i => rfl)
    refine Font_destroy_inv w cnt _ f hinv ?_ ?_
    · rw [hcnt]
      simp [List.countP_cons, Font.shares]
    · intro i
      rw [hcnt, List.countP_cons, shares_ite]
      omega

theorem countP_eraseIdx_of_getElem? {α : Type} (q : α → Bool) (l : List α) (i : Nat)
    (a : α) (h : l[i]? = some a) :
    (l.eraseIdx i).countP q + (if q a then 1 else 0) = l.countP q := by
  induction l generalizing i with
  | nil => simp at h
  | cons x xs ih =>
    cases i with
    | zero =>
      simp only [List.getElem?_cons_zero, Option.some.injEq] at h
      subst h
      simp only [List.eraseIdx_cons_zero, List.countP_cons]
    | succ j =>
      simp only [List.getElem?_cons_succ] at h
      have := ih j h
      simp only [List.eraseIdx_cons_succ, List.countP_cons]
      omega

theorem mem_of_getElem? {α : Type} (l : List α) (i : Nat) (a : α) (h : l[i]? = some a) :
    a ∈ l := by
  induction l generalizing i with
  | nil => simp at h
  | cons x xs ih =>
    cases i with
    | zero =>
      simp only [List.getElem?_cons_zero, Option.some.injEq] at h
      subst h
      exact List.mem_cons_self _ _
    | succ j =>
      simp only [List.getElem?_cons_succ] at h
      exact List.mem_cons_of_mem _ (ih j h)

theorem countP_shares_pos_of_mem (L : List Font) (f : Font) (h : f ∈ L) :
    0 < L.countP (Font.shares f.font_.pn) := by
  induction L with
  | nil => cases h
  | cons x xs ih =>
    rw [List.countP_cons]
    rcases List.mem_cons.mp h with he | hm
    · subst he
      simp [Font.shares]
    · have := ih hm
      omega

/-! ## Lemmas: the `Font` values of the cache -/

theorem mem_map_snd_of_mapFind {κ ν : Type} [DecidableEq κ] (m : List (κ × ν)) (k : κ)
    (v : ν) (h : mapFind m k = some v) : v ∈ m.map Prod.snd := by
  induction m with
  | nil => simp [mapFind] at h
  | cons e rest ih =>
    obtain ⟨k0, v0⟩ := e
    by_cases h0 : k0 = k
    · simp only [mapFind, h0, if_true, Option.some.injEq] at h
      subst h
      simp
    · simp only [mapFind, h0, if_false] at h
      simp only [List.map_cons, List.mem_cons]
      exact Or.inr (ih h)

theorem mem_cacheFonts_of_lookup (fm : FontManager) (p : String) (s : Int) (c : Font)
    (h : fm.lookup p s = some c) : c ∈ cacheFonts fm.fonts_ := by
  obtain ⟨m⟩ := fm
  simp only [FontManager.lookup] at h
  induction m with
  | nil => simp [mapFind] at h
  | cons e rest ih =>
    obtain ⟨k0, sm0⟩ := e
    simp only [cacheFonts, List.mem_append]
    by_cases h0 : k0 = p
    · simp only [mapFind, h0, if_true] at h
      exact Or.inl (mem_map_snd_of_mapFind sm0 s c h)
    · simp only [mapFind, h0, if_false] at h
      exact Or.inr (ih h)

theorem countP_map_snd_mapInsert {κ ν : Type} [DecidableEq κ] (q : ν → Bool)
    (m : List (κ × ν)) (k : κ) (v : ν) (h : mapFind m k = none) :
    ((mapInsert m k v).map Prod.snd).countP q =
      (m.map Prod.snd).countP q + (if q v then 1 else 0) := by
  induction m with
  | nil => simp [mapInsert, List.countP_cons]
  | cons e rest ih =>
    obtain ⟨k0, v0⟩ := e
    by_cases h0 : k0 = k
    · simp [mapFind, h0] at h
    · simp only [mapFind, h0, if_false] at h
      simp only [mapInsert, h0, if_false, List.map_cons, List.countP_cons, ih h]
      omega

theorem countP_cacheFonts_mapInsert (q : Font → Bool) (m : FontMap) (k : String)
    (s : Int) (v : Font) (h : mapFind m k = none) :
    (cacheFonts (mapInsert m k [(s, v)])).countP q =
      (cacheFonts m).countP q + (if q v then 1 else 0) := by
  induction m with
  | nil => simp [mapInsert, cacheFonts, List.countP_cons]
  | cons e rest ih =>
    obtain ⟨k0, sm0⟩ := e
    by_cases h0 : k0 = k
    · simp [mapFind, h0] at h
    · simp only [mapFind, h0, if_false] at h
      simp only [mapInsert, h0, if_false, cacheFonts, List.countP_append, ih h]
      omega

theorem countP_cacheFonts_mapModify (q : Font → Bool) (m : FontMap) (k : String)
    (sm : FontSizeMap) (s : Int) (v : Font) (h : mapFind m k = some sm)
    (hs : mapFind sm s = none) :
    (cacheFonts (mapModify m k (fun x => mapInsert x s v))).countP q =
      (cacheFonts m).countP q + (if q v then 1 else 0) := by
  induction m with
  | nil => simp [mapFind] at h
  | cons e rest ih =>
    obtain ⟨k0, sm0⟩ := e
    by_cases h0 : k0 = k
    · simp only [mapFind, h0, if_true, Option.some.injEq] at h
      subst h
      simp only [mapModify, h0, if_true, cacheFonts, List.countP_append,
        countP_map_snd_mapInsert q sm0 s v hs]
      omega
    · simp only [mapFind, h0, if_false] at h
      simp only [mapModify, h0, if_false, cacheFonts, List.countP_append, ih h]
      omega

theorem font_miss_ok_cacheFonts (N : Native) (w : World) (fm : FontManager) (p : String)
    (s : Int) (f : Font) (q : Font → Bool) (h : fm.lookup p s = none)
    (hn : (Font.new N w p s).1 = Except.ok f) :
    (cacheFonts (FontManager.font N w fm p s).2.2.fonts_).countP q =
      (cacheFonts fm.fonts_).countP q + (if q f then 1 else 0) := by
  unfold FontManager.lookup at h
  unfold FontManager.font
  cases hm : mapFind fm.fonts_ p with
  | none =>
    simp only [hn, Font_copy_fst]
    exact countP_cacheFonts_mapInsert q _ _ _ _ hm
  | some sm =>
    simp only [hm] at h
    simp only [h, hn, Font_copy_fst]
    exact countP_cacheFonts_mapModify q _ _ sm _ _ hm h

/-! ## Lemmas: the invariant along a program -/

theorem step_inv (N : Native) (s : Program) (op : Op)
    (hinv : WorldInv s.w s.sharers) :
    WorldInv (s.step N op).w (s.step N op).sharers := by
  obtain ⟨w, mgr, fonts⟩ := s
  cases op with
  | construct filename pointSize =>
    cases hn : (Font.new N w filename pointSize).1 with
    | error e =>
      simp only [Program.step, hn]
      exact Font_new_inv_error N w _ filename pointSize e hinv hn
    | ok f =>
      simp only [Program.step, hn]
      refine Font_new_inv_ok N w _ _ filename pointSize f hinv hn ?_
      intro i
      simp only [Program.sharers, Program.liveFonts, List.cons_append, List.countP_cons,
        shares_ite]
  | font fileName pointSize =>
    cases mgr with
    | none => exact hinv
    | some fm =>
      cases hl : fm.lookup fileName pointSize with
      | some c =>
        simp only [Program.step, font_hit N w fm fileName pointSize c hl]
        refine Font_copy_inv w _ _ c hinv ?_ ?_
        · refine countP_shares_pos_of_mem _ c ?_
          simp only [Program.liveFonts, List.mem_append]
          exact Or.inr (mem_cacheFonts_of_lookup fm fileName pointSize c hl)
        · intro i
          simp only [Program.sharers, Program.liveFonts, List.cons_append,
            List.countP_cons, shares_ite]
      | none =>
        cases hn : (Font.new N w fileName pointSize).1 with
        | error e =>
          simp only [Program.step, font_miss_error N w fm fileName pointSize e hl hn]
          exact Font_new_inv_error N w _ fileName pointSize e hinv hn
        | ok f =>
          obtain ⟨h1, h2, _, _⟩ := font_miss_ok N w fm fileName pointSize f hl hn
          have hc := fun i => font_miss_ok_cacheFonts N w fm fileName pointSize f
            (Font.shares i) hl hn
          simp only [Program.step, h1, h2]
          have hw1 := Font_new_inv_ok N w _
            (fun i => Program.sharers ⟨w, some fm, fonts⟩ i +
              (if f.font_.pn = i then 1 else 0))
            fileName pointSize f hinv hn (fun i => rfl)
          refine Font_copy_inv _ _ _ f hw1 ?_ ?_
          · simp
          · intro i
            simp only [Program.sharers, Program.liveFonts, List.cons_append,
              List.countP_cons, List.countP_append, hc i, shares_ite]
            omega
  | copy i =>
    cases hf : fonts[i]? with
    | none =>
      simp only [Program.step, hf]
      exact hinv
    | some f =>
      simp only [Program.step, hf, Font_copy_fst]
      refine Font_copy_inv w _ _ f hinv ?_ ?_
      · refine countP_shares_pos_of_mem _ f ?_
        simp only [Program.liveFonts, List.mem_append]
        exact Or.inl (mem_of_getElem? fonts i f hf)
      · intro j
        simp only [Program.sharers, Program.liveFonts, List.cons_append,
          List.countP_cons, shares_ite]
  | destroy i =>
    cases hf : fonts[i]? with
    | none =>
      simp only [Program.step, hf]
      exact hinv
    | some f =>
      simp only [Program.step, hf]
      refine Font_destroy_inv w _ _ f hinv ?_ ?_
      · refine countP_shares_pos_of_mem _ f ?_
        simp only [Program.liveFonts, List.mem_append]
        exact Or.inl (mem_of_getElem? fonts i f hf)
      · intro j
        have := countP_eraseIdx_of_getElem? (Font.shares j) fonts i f hf
        rw [shares_ite] at this
        simp only [Program.sharers, Program.liveFonts, List.countP_append]
        omega
  | exit =>
    cases mgr with
    | none => exact hinv
    | some fm =>
      simp only [Program.step]
      refine destroyAll_inv _ w _ _ hinv ?_
      intro i
      simp only [Program.sharers, Program.liveFonts, List.countP_append, List.countP_nil,
        List.append_nil]

theorem run_inv (N : Native) (ops : List Op) (s : Program)
    (hinv : WorldInv s.w s.sharers) :
    WorldInv (s.run N ops).w (s.run N ops).sharers := by
  induction ops generalizing s with
  | nil => exact hinv
  | cons op rest ih =>
    simp only [Program.run, List.foldl_cons]
    exact ih (s.step N op) (step_inv N s op hinv)

theorem init_inv : WorldInv Program.init.w Program.init.sharers := by
  refine ⟨?_, ?_, ?_⟩
  · intro i _
    rfl
  · intro i b hb
    simp [Program.init, World.empty] at hb
  · intro h
    rfl

theorem countP_releasedWith_of_unique (h : Ptr) (l : List CtrlBlock) (i : Nat)
    (b : CtrlBlock) (hb : l[i]? = some b)
    (huniq : ∀ j b2, l[j]? = some b2 → b2.ptr = h → j = i) :
    l.countP (CtrlBlock.releasedWith h) =
      if b.ptr = h ∧ b.useCount = 0 then 1 else 0 := by
  induction l generalizing i with
  | nil => simp at hb
  | cons x xs ih =>
    cases i with
    | zero =>
      simp only [List.getElem?_cons_zero, Option.some.injEq] at hb
      subst hb
      have hrest : xs.countP (CtrlBlock.releasedWith h) = 0 := by
        rw [List.countP_eq_zero]
        intro a ha
        obtain ⟨k, hk, hka⟩ := List.getElem_of_mem ha
        have hk2 : (x :: xs)[k + 1]? = some a := by
          simp only [List.getElem?_cons_succ]
          rw [List.getElem?_eq_getElem hk, hka]
        intro hr
        simp only [CtrlBlock.releasedWith, Bool.and_eq_true, decide_eq_true_eq] at hr
        have := huniq (k + 1) a hk2 hr.1
        omega
      rw [List.countP_cons, hrest]
      simp [CtrlBlock.releasedWith]
    | succ j =>
      simp only [List.getElem?_cons_succ] at hb
      have hx : CtrlBlock.releasedWith h x = false := by
        cases hr : CtrlBlock.releasedWith h x with
        | false => rfl
        | true =>
          simp only [CtrlBlock.releasedWith, Bool.and_eq_true, decide_eq_true_eq] at hr
          have := huniq 0 x (by simp) hr.1
          omega
      rw [List.countP_cons, hx]
      have := ih j hb (fun k b2 hk hp => by
        have := huniq (k + 1) b2 (by simpa using hk) hp
        omega)
      simpa using this

/-! ## Theorems: colours of the render modes, failure of `font`, default encoding -/

/-- The colours of the render modes as the code has it: a mode constructed
as `Shaded (fg, bg)` holds `fg` and `bg`, and its `render` of a character, and
of a text in any encoding, passes `fg` as the foreground and `bg` as the
background argument of the native call it makes: one call for a character
and for every encoding but UNICODE, whose `render` makes no native call.  The
mode is not changed by a `render`: a second `render` passes the same two
colours.  `Solid (color)` and `Blended (color)` pass exactly `color` in the
same way. -/
theorem render_passes_constructed_colours (N : Native) (w : World) (font : Font)
    (text : String) (c : Int) (Encoding : Int) (fg bg color : Color) :
    ((Shaded.new fg bg).fg_ = fg ∧ (Shaded.new fg bg).bg_ = bg) ∧
    (Shaded.new fg bg).render_glyph N w font c =
      nativeRender N w RenderFn.TTF_RenderGlyph_Shaded font (RenderArg.glyph (toUint16 c))
        fg.deref2 (some bg.deref2) ∧
    ((Encoding = UNICODE ∧
        (Shaded.new fg bg).render Encoding N w font text = (Surface.default, w)) ∨
      (Encoding ≠ UNICODE ∧ ∃ fn,
        (Shaded.new fg bg).render Encoding N w font text =
          nativeRender N w fn font (RenderArg.text text) fg.deref2 (some bg.deref2))) ∧
    ((Shaded.new fg bg).render TEXT N ((Shaded.new fg bg).render_glyph N w font c).2
        font text).2.calls =
      w.calls ++
        [NativeCall.render RenderFn.TTF_RenderGlyph_Shaded font.deref
          (RenderArg.glyph (toUint16 c)) fg.deref2 (some bg.deref2),
         NativeCall.render RenderFn.TTF_RenderText_Shaded font.deref
          (RenderArg.text text) fg.deref2 (some bg.deref2)] ∧
    (Solid.new color).render_glyph N w font c =
      nativeRender N w RenderFn.TTF_RenderGlyph_Solid font (RenderArg.glyph (toUint16 c))
        color.deref2 none ∧
    ((Encoding = UNICODE ∧
        (Solid.new color).render Encoding N w font text = (Surface.default, w)) ∨
      (Encoding ≠ UNICODE ∧ ∃ fn,
        (Solid.new color).render Encoding N w font text =
          nativeRender N w fn font (RenderArg.text text) color.deref2 none)) ∧
    (Blended.new color).render_glyph N w font c =
      nativeRender N w RenderFn.TTF_RenderGlyph_Blended font (RenderArg.glyph (toUint16 c))
        color.deref2 none ∧
    ((Encoding = UNICODE ∧
        (Blended.new color).render Encoding N w font text = (Surface.default, w)) ∨
      (Encoding ≠ UNICODE ∧ ∃ fn,
        (Blended.new color).render Encoding N w font text =
          nativeRender N w fn font (RenderArg.text text) color.deref2 none)) := by
  refine ⟨⟨rfl, rfl⟩, rfl, ?_, ?_, rfl, ?_, rfl, ?_⟩
  · by_cases hu : Encoding = UNICODE
    · subst hu
      exact Or.inl ⟨rfl, rfl⟩
    · refine Or.inr ⟨hu, ?_⟩
      by_cases ht : Encoding = TEXT
      · exact ⟨RenderFn.TTF_RenderText_Shaded, by simp [Shaded.render, ht, Shaded.render_TEXT, Shaded.new]⟩
      · by_cases h8 : Encoding = UTF8
        · subst h8
          exact ⟨RenderFn.TTF_RenderUTF8_Shaded, rfl⟩
        · exact ⟨RenderFn.TTF_RenderText_Shaded,
            by simp [Shaded.render, ht, h8, hu, Shaded.render_primary, Shaded.new]⟩
  · simp [Shaded.render, Shaded.render_TEXT, Shaded.render_glyph, Shaded.new, nativeRender,
      World.call]
  · by_cases hu : Encoding = UNICODE
    · subst hu
      exact Or.inl ⟨rfl, rfl⟩
    · refine Or.inr ⟨hu, ?_⟩
      by_cases ht : Encoding = TEXT
      · exact ⟨RenderFn.TTF_RenderText_Solid, by simp [Solid.render, ht, Solid.render_TEXT, Solid.new]⟩
      · by_cases h8 : Encoding = UTF8
        · subst h8
          exact ⟨RenderFn.TTF_RenderUTF8_Solid, rfl⟩
        · exact ⟨RenderFn.TTF_RenderText_Solid,
            by simp [Solid.render, ht, h8, hu, Solid.render_primary, Solid.new]⟩
  · by_cases hu : Encoding = UNICODE
    · subst hu
      exact Or.inl ⟨rfl, rfl⟩
    · refine Or.inr ⟨hu, ?_⟩
      by_cases ht : Encoding = TEXT
      · exact ⟨RenderFn.TTF_RenderText_Blended,
          by simp [Blended.render, ht, Blended.render_TEXT, Blended.new]⟩
      · by_cases h8 : Encoding = UTF8
        · subst h8
          exact ⟨RenderFn.TTF_RenderUTF8_Blended, rfl⟩
        · exact ⟨RenderFn.TTF_RenderText_Blended,
            by simp [Blended.render, ht, h8, hu, Blended.render_primary, Blended.new]⟩

/-- C11 (the code at the failing input): for the text `"hi"` in the encoding
UNICODE, `render` of `Shaded (black, white)` makes no native call, so that
neither `black` is passed as the foreground nor `white` as the background
colour of any native render function; the same holds of `Solid (black)` and
of `Blended (black)`, which pass their colour to no native function. -/
theorem render_UNICODE_passes_no_colour :
    ((Shaded.new black white).render UNICODE nativeOk world1 font1 "hi").2.calls =
      world1.calls ∧
    (∀ fn, (Shaded.new black white).render UNICODE nativeOk world1 font1 "hi" ≠
      nativeRender nativeOk world1 fn font1 (RenderArg.text "hi") black.deref2
        (some white.deref2)) ∧
    ((Solid.new black).render UNICODE nativeOk world1 font1 "hi").2.calls =
      world1.calls ∧
    (∀ fn, (Solid.new black).render UNICODE nativeOk world1 font1 "hi" ≠
      nativeRender nativeOk world1 fn font1 (RenderArg.text "hi") black.deref2 none) ∧
    ((Blended.new black).render UNICODE nativeOk world1 font1 "hi").2.calls =
      world1.calls ∧
    (∀ fn, (Blended.new black).render UNICODE nativeOk world1 font1 "hi" ≠
      nativeRender nativeOk world1 fn font1 (RenderArg.text "hi") black.deref2 none) := by
  have h1 : (Shaded.new black white).render UNICODE nativeOk world1 font1 "hi" =
      (Surface.default, world1) := rfl
  have h2 : (Solid.new black).render UNICODE nativeOk world1 font1 "hi" =
      (Surface.default, world1) := rfl
  have h3 : (Blended.new black).render UNICODE nativeOk world1 font1 "hi" =
      (Surface.default, world1) := rfl
  refine ⟨?_, ?_, ?_, ?_, ?_, ?_⟩
  · rw [h1]
  · intro fn hc
    rw [h1] at hc
    have := congrArg Prod.fst hc
    simp [nativeRender] at this
  · rw [h2]
  · intro fn hc
    rw [h2] at hc
    have := congrArg Prod.fst hc
    simp [nativeRender] at this
  · rw [h3]
  · intro fn hc
    rw [h3] at hc
    have := congrArg Prod.fst hc
    simp [nativeRender] at this

theorem Font_new_error_null (N : Native) (w : World) (p : String) (s : Int) (e : String)
    (h : (Font.new N w p s).1 = Except.error e) :
    N.TTF_OpenFont w.calls p s = NULL := by
  by_cases h0 : N.TTF_OpenFont w.calls p s = NULL
  · exact h0
  · simp [Font.new, SharedPtr.new, SharedPtr.get, World.call, h0] at h

/-- C12: when `font (p, s)` throws, the cache after the call is the cache
before it: `(p, s)` had no entry and has none, the size map of `p`, or its
absence, is as before, and the throw comes from a `TTF_OpenFont` that
returned the null handle. -/
theorem font_throw_leaves_cache (N : Native) (w : World) (fm : FontManager)
    (p : String) (s : Int) (e : String)
    (h : (FontManager.font N w fm p s).1 = Except.error e) :
    (FontManager.font N w fm p s).2.2 = fm ∧
    fm.lookup p s = none ∧
    (FontManager.font N w fm p s).2.2.lookup p s = none ∧
    mapFind (FontManager.font N w fm p s).2.2.fonts_ p = mapFind fm.fonts_ p ∧
    (FontManager.font N w fm p s).2.2.entryCount = fm.entryCount ∧
    N.TTF_OpenFont w.calls p s = NULL := by
  cases hl : fm.lookup p s with
  | some c =>
    rw [font_hit N w fm p s c hl] at h
    cases h
  | none =>
    cases hn : (Font.new N w p s).1 with
    | ok f =>
      rw [(font_miss_ok N w fm p s f hl hn).1] at h
      cases h
    | error e2 =>
      rw [font_miss_error N w fm p s e2 hl hn]
      exact ⟨rfl, rfl, hl, rfl, rfl, Font_new_error_null N w p s e2 hn⟩

/-- Witness of C12: the cache holds `"a.ttf"` under the size 12, the native
library opens no font, and `font ("b.ttf", 12)` throws. -/
theorem font_throw_leaves_cache_witness :
    (FontManager.font nativeFail world1 manager1 "b.ttf" 12).1 = Except.error "failed" ∧
    (FontManager.font nativeFail world1 manager1 "b.ttf" 12).2.2 = manager1 ∧
    manager1.lookup "b.ttf" 12 = none ∧
    (FontManager.font nativeFail world1 manager1 "b.ttf" 12).2.2.lookup "b.ttf" 12 = none ∧
    mapFind (FontManager.font nativeFail world1 manager1 "b.ttf" 12).2.2.fonts_ "b.ttf" =
      mapFind manager1.fonts_ "b.ttf" ∧
    (FontManager.font nativeFail world1 manager1 "b.ttf" 12).2.2.entryCount =
      manager1.entryCount ∧
    nativeFail.TTF_OpenFont world1.calls "b.ttf" 12 = NULL :=
  ⟨rfl, font_throw_leaves_cache nativeFail world1 manager1 "b.ttf" 12 "failed" rfl⟩

/-- C14: for every integer `Encoding` other than UTF8 and UNICODE,
`render<Encoding>` of `Solid`, of `Shaded` and of `Blended`, also when reached
through `Font::render`, is the same function as `render<TEXT>`, and
`Font::size<Encoding>` is the same function as `Font::size<TEXT>`. -/
theorem encoding_defaults_to_TEXT (Encoding : Int) (h8 : Encoding ≠ UTF8)
    (hu : Encoding ≠ UNICODE) :
    Solid.render Encoding = Solid.render TEXT ∧
    Shaded.render Encoding = Shaded.render TEXT ∧
    Blended.render Encoding = Blended.render TEXT ∧
    (∀ (N : Native) (w : World) (font : Font) (text : String) (so : Solid) (sh : Shaded)
        (bl : Blended),
      Font.render Encoding N w font text so = Font.render TEXT N w font text so ∧
      Font.render Encoding N w font text sh = Font.render TEXT N w font text sh ∧
      Font.render Encoding N w font text bl = Font.render TEXT N w font text bl) ∧
    Font.size Encoding = Font.size TEXT := by
  have hs : Solid.render Encoding = Solid.render TEXT := by
    funext self N w font text
    by_cases ht : Encoding = TEXT
    · rw [ht]
    · simp only [Solid.render, ht, h8, hu, if_false, if_true]
      rfl
  have hh : Shaded.render Encoding = Shaded.render TEXT := by
    funext self N w font text
    by_cases ht : Encoding = TEXT
    · rw [ht]
    · simp only [Shaded.render, ht, h8, hu, if_false, if_true]
      rfl
  have hb : Blended.render Encoding = Blended.render TEXT := by
    funext self N w font text
    by_cases ht : Encoding = TEXT
    · rw [ht]
    · simp only [Blended.render, ht, h8, hu, if_false, if_true]
      rfl
  refine ⟨hs, hh, hb, ?_, ?_⟩
  · intro N w font text so sh bl
    refine ⟨?_, ?_, ?_⟩
    · exact congrFun (congrFun (congrFun (congrFun (congrFun hs so) N) w) font) text
    · exact congrFun (congrFun (congrFun (congrFun (congrFun hh sh) N) w) font) text
    · exact congrFun (congrFun (congrFun (congrFun (congrFun hb bl) N) w) font) text
  · funext N w font text o
    by_cases ht : Encoding = TEXT
    · rw [ht]
    · simp only [Font.size, ht, h8, hu, if_false, if_true]
      rfl

/-- Witness of C14: the encoding 7. -/
theorem encoding_defaults_to_TEXT_witness :
    (7 : Int) ≠ UTF8 ∧ (7 : Int) ≠ UNICODE ∧
    Solid.render 7 = Solid.render TEXT ∧
    Shaded.render 7 = Shaded.render TEXT ∧
    Blended.render 7 = Blended.render TEXT ∧
    (∀ (N : Native) (w : World) (font : Font) (text : String) (so : Solid) (sh : Shaded)
        (bl : Blended),
      Font.render 7 N w font text so = Font.render TEXT N w font text so ∧
      Font.render 7 N w font text sh = Font.render TEXT N w font text sh ∧
      Font.render 7 N w font text bl = Font.render TEXT N w font text bl) ∧
    Font.size 7 = Font.size TEXT :=
  ⟨by decide, by decide, encoding_defaults_to_TEXT 7 (by decide) (by decide)⟩

/-! ## Lemmas: histories that grow at the end -/

theorem lt_length_of_initSucceededAt (N : Native) (calls : List NativeCall) (k : Nat)
    (h : initSucceededAt N calls k) : k < calls.length := by
  rcases Nat.lt_or_ge k calls.length with hlt | hge
  · exact hlt
  · have := h.1
    rw [List.getElem?_eq_none hge] at this
    cases this

theorem initSucceededAt_append (N : Native) (calls extra : List NativeCall) (k : Nat)
    (h : initSucceededAt N calls k) : initSucceededAt N (calls ++ extra) k := by
  have hk := lt_length_of_initSucceededAt N calls k h
  refine ⟨?_, ?_⟩
  · rw [List.getElem?_append_left hk]
    exact h.1
  · rw [List.take_append_of_le_length (Nat.le_of_lt hk)]
    exact h.2

theorem hasInit_append (N : Native) (calls extra : List NativeCall)
    (h : hasInit N calls) : hasInit N (calls ++ extra) := by
  obtain ⟨k, hk, hs⟩ := h
  refine ⟨k, ?_, initSucceededAt_append N calls extra k hs⟩
  rw [List.length_append]
  omega

theorem hasInit_of_init (N : Native) (calls extra : List NativeCall)
    (h : N.TTF_Init calls ≠ -1) :
    hasInit N (calls ++ NativeCall.TTF_Init :: extra) := by
  refine ⟨calls.length, ?_, ?_, ?_⟩
  · simp
  · rw [List.getElem?_append_right (Nat.le_refl _), Nat.sub_self]
    exact List.getElem?_cons_zero
  · rw [List.take_left]
    exact h

theorem opensPreceded_append_of_hasInit (N : Native) (calls extra : List NativeCall)
    (hp : opensPreceded N calls) (hi : hasInit N calls) :
    opensPreceded N (calls ++ extra) := by
  intro j p sz hj
  rcases Nat.lt_or_ge j calls.length with hlt | hge
  · rw [List.getElem?_append_left hlt] at hj
    obtain ⟨k, hk, hs⟩ := hp j p sz hj
    exact ⟨k, hk, initSucceededAt_append N calls extra k hs⟩
  · obtain ⟨k, hk, hs⟩ := hi
    exact ⟨k, by omega, initSucceededAt_append N calls extra k hs⟩

theorem opensPreceded_append_of_noOpen (N : Native) (calls extra : List NativeCall)
    (hp : opensPreceded N calls)
    (hn : ∀ c ∈ extra, ∀ p sz, c ≠ NativeCall.TTF_OpenFont p sz) :
    opensPreceded N (calls ++ extra) := by
  intro j p sz hj
  rcases Nat.lt_or_ge j calls.length with hlt | hge
  · rw [List.getElem?_append_left hlt] at hj
    obtain ⟨k, hk, hs⟩ := hp j p sz hj
    exact ⟨k, hk, initSucceededAt_append N calls extra k hs⟩
  · rw [List.getElem?_append_right hge] at hj
    exact absurd rfl (hn _ (List.getElem?_mem hj) p sz)

theorem release_calls_extend (w : World) (sp : SharedPtr) :
    ∃ extra, (SharedPtr.release w sp).calls = w.calls ++ extra := by
  simp only [SharedPtr.release]
  cases w.blocks[sp.pn]? with
  | none => exact ⟨[], by simp⟩
  | some b =>
    by_cases h0 : b.useCount = 0
    · exact ⟨[], by simp [h0]⟩
    · by_cases h1 : b.useCount = 1
      · exact ⟨[NativeCall.TTF_CloseFont b.ptr], by simp [h1]⟩
      · exact ⟨[], by simp [h0, h1]⟩

theorem Font_new_calls_extend (N : Native) (w : World) (p : String) (s : Int) :
    ∃ extra, (Font.new N w p s).2.calls = w.calls ++ extra := by
  by_cases h0 : N.TTF_OpenFont w.calls p s = NULL
  · simp only [Font.new, SharedPtr.get, SharedPtr.new, h0, if_true]
    obtain ⟨extra, he⟩ := release_calls_extend
      (World.call { calls := (w.call (NativeCall.TTF_OpenFont p s)).calls,
                    blocks := (w.call (NativeCall.TTF_OpenFont p s)).blocks ++ [⟨NULL, 1⟩] }
        NativeCall.TTF_GetError)
      ⟨NULL, (w.call (NativeCall.TTF_OpenFont p s)).blocks.length⟩
    refine ⟨NativeCall.TTF_OpenFont p s :: NativeCall.TTF_GetError :: extra, ?_⟩
    rw [he]
    simp [World.call]
  · exact ⟨[NativeCall.TTF_OpenFont p s],
      by simp [Font.new, SharedPtr.get, SharedPtr.new, World.call, h0]⟩

theorem font_calls_extend (N : Native) (w : World) (fm : FontManager) (p : String)
    (s : Int) : ∃ extra, (FontManager.font N w fm p s).2.1.calls = w.calls ++ extra := by
  cases hl : fm.lookup p s with
  | some c =>
    rw [font_hit N w fm p s c hl]
    exact ⟨[], by simp [Font_copy_calls]⟩
  | none =>
    cases hn : (Font.new N w p s).1 with
    | error e =>
      rw [font_miss_error N w fm p s e hl hn]
      exact Font_new_calls_extend N w p s
    | ok f =>
      obtain ⟨_, h2, _, _⟩ := font_miss_ok N w fm p s f hl hn
      rw [h2, Font_copy_calls]
      exact Font_new_calls_extend N w p s

/-! ## Lemmas: the first `FontManager::instance ()` -/

theorem instance_of_init_failure (N : Native) (w : World)
    (h : N.TTF_Init w.calls = -1) :
    FontManager.instance N w false none =
      (Except.error (N.TTF_GetError (w.calls ++ [NativeCall.TTF_Init])),
        ⟨w.calls ++ [NativeCall.TTF_Init, NativeCall.TTF_GetError], w.blocks⟩,
        false, none) := by
  simp [FontManager.instance, FontManager.new, TTF.instance, TTF.new, TTF.init,
    World.call, h]

theorem instance_of_init_success (N : Native) (w : World)
    (h : N.TTF_Init w.calls ≠ -1) :
    FontManager.instance N w false none =
      (Except.ok ⟨[]⟩, ⟨w.calls ++ [NativeCall.TTF_Init], w.blocks⟩, true, some ⟨[]⟩) := by
  simp [FontManager.instance, FontManager.new, TTF.instance, TTF.new, TTF.init,
    World.call, h]

/-! ## Lemmas: the invariant of a process -/

theorem process_step_inv (N : Native) (s : Process) (op : ProcessOp)
    (hinv : ProcessInv N s) : ProcessInv N (s.step N op) := by
  obtain ⟨w, ttf, mgr⟩ := s
  obtain ⟨h1, h2, h3, h4⟩ := hinv
  cases op with
  | managerInstance =>
    cases mgr with
    | some fm => exact ⟨h1, h2, h3, h4⟩
    | none =>
      simp only [Option.isSome_none] at h1
      subst h1
      simp only [Process.step]
      by_cases hr : N.TTF_Init w.calls = -1
      · rw [instance_of_init_failure N w hr]
        refine ⟨rfl, ?_, ?_, ?_⟩
        · intro hf
          cases hf
        · refine opensPreceded_append_of_noOpen N w.calls _ h3 ?_
          intro c hc p sz
          simp only [List.mem_cons, List.mem_singleton, List.mem_nil_iff, or_false] at hc
          rcases hc with hc | hc <;> subst hc <;> simp
        · intro _
          have := h4 rfl
          simp only [openCount, List.countP_append, List.countP_cons, List.countP_nil] at this ⊢
          simpa using this
      · rw [instance_of_init_success N w hr]
        refine ⟨rfl, ?_, ?_, ?_⟩
        · intro _
          exact hasInit_of_init N w.calls [] hr
        · refine opensPreceded_append_of_noOpen N w.calls _ h3 ?_
          intro c hc p sz
          simp only [List.mem_singleton] at hc
          subst hc
          simp
        · intro hf
          cases hf
  | managerFont fileName pointSize =>
    cases mgr with
    | none => exact ⟨h1, h2, h3, h4⟩
    | some fm =>
      simp only [Option.isSome_some] at h1
      obtain ⟨extra, he⟩ := font_calls_extend N w fm fileName pointSize
      have hi := h2 h1
      simp only [Process.step]
      refine ⟨h1, ?_, ?_, ?_⟩
      · intro _
        rw [he]
        exact hasInit_append N w.calls extra hi
      · rw [he]
        exact opensPreceded_append_of_hasInit N w.calls extra h3 hi
      · intro hf
        cases hf

theorem process_run_inv (N : Native) (ops : List ProcessOp) (s : Process)
    (hinv : ProcessInv N s) : ProcessInv N (s.run N ops) := by
  induction ops generalizing s with
  | nil => exact hinv
  | cons op rest ih =>
    simp only [Process.run, List.foldl_cons]
    exact ih (s.step N op) (process_step_inv N s op hinv)

theorem process_init_inv (N : Native) : ProcessInv N Process.init := by
  refine ⟨rfl, ?_, ?_, ?_⟩
  · intro hf
    cases hf
  · intro j p sz hj
    simp [Process.init, World.empty] at hj
  · intro _
    rfl

/-! ## Theorem: no font is opened before the subsystem is initialised -/

/-- C13: in every state reached by the steps `FontManager::instance ()` and
`font (p, s)`: every `TTF_OpenFont` in the history comes after a `TTF_Init`
that returned a value other than -1; a `FontManager` instance exists only
with the `TTF` singleton constructed and such a `TTF_Init` made; while no
instance exists no `TTF_OpenFont` has been called; and when `TTF_Init` fails
in `FontManager::instance ()`, that call throws, still no instance exists and
still no `TTF_OpenFont` has been called. -/
theorem FontManager_opens_only_after_init (N : Native) (ops : List ProcessOp) :
    (∀ j p sz, (Process.init.run N ops).w.calls[j]? = some (NativeCall.TTF_OpenFont p sz) →
      ∃ k, k < j ∧ (Process.init.run N ops).w.calls[k]? = some NativeCall.TTF_Init ∧
        N.TTF_Init ((Process.init.run N ops).w.calls.take k) ≠ -1) ∧
    ((Process.init.run N ops).manager.isSome = true →
      (Process.init.run N ops).ttf = true ∧ hasInit N (Process.init.run N ops).w.calls) ∧
    ((Process.init.run N ops).manager = none →
      openCount (Process.init.run N ops).w.calls = 0) ∧
    ((Process.init.run N ops).manager = none →
      N.TTF_Init (Process.init.run N ops).w.calls = -1 →
      (∃ e, (FontManager.instance N (Process.init.run N ops).w (Process.init.run N ops).ttf
        (Process.init.run N ops).manager).1 = Except.error e) ∧
      ((Process.init.run N ops).step N ProcessOp.managerInstance).manager = none ∧
      openCount ((Process.init.run N ops).step N ProcessOp.managerInstance).w.calls = 0) := by
  have hinv := process_run_inv N ops Process.init (process_init_inv N)
  have hnext := process_step_inv N _ ProcessOp.managerInstance hinv
  obtain ⟨h1, h2, h3, h4⟩ := hinv
  refine ⟨h3, ?_, h4, ?_⟩
  · intro hs
    have ht : (Process.init.run N ops).ttf = true := by rw [h1]; exact hs
    exact ⟨ht, h2 ht⟩
  · intro hm hr
    have ht : (Process.init.run N ops).ttf = false := by rw [h1, hm]; rfl
    have hmgr : ((Process.init.run N ops).step N ProcessOp.managerInstance).manager = none := by
      simp only [Process.step, hm, ht, instance_of_init_failure N _ hr]
    refine ⟨?_, hmgr, hnext.2.2.2 hmgr⟩
    rw [hm, ht, instance_of_init_failure N _ hr]
    exact ⟨_, rfl⟩

/-! ## Lemmas: the handles opened along a history -/

theorem openedHandlesFrom_append (N : Native) (l1 l2 before : List NativeCall) :
    openedHandlesFrom N before (l1 ++ l2) =
      openedHandlesFrom N before l1 ++ openedHandlesFrom N (before ++ l1) l2 := by
  induction l1 generalizing before with
  | nil => simp [openedHandlesFrom]
  | cons c rest ih =>
    rw [List.cons_append]
    simp only [openedHandlesFrom]
    rw [ih]
    simp [List.append_assoc]

theorem openedHandles_append_single (N : Native) (calls : List NativeCall)
    (c : NativeCall) :
    openedHandles N (calls ++ [c]) = openedHandles N calls ++ openResult N calls c := by
  simp [openedHandles, openedHandlesFrom_append, openedHandlesFrom]

theorem openResult_of_not_open (N : Native) (calls : List NativeCall) (c : NativeCall)
    (hc : ∀ p sz, c ≠ NativeCall.TTF_OpenFont p sz) : openResult N calls c = [] := by
  cases c <;> first | rfl | exact absurd rfl (hc _ _)

theorem map_ptr_set (l : List CtrlBlock) (i : Nat) (b b2 : CtrlBlock)
    (h : l[i]? = some b) (hp : b2.ptr = b.ptr) :
    (l.set i b2).map CtrlBlock.ptr = l.map CtrlBlock.ptr := by
  induction l generalizing i with
  | nil => simp at h
  | cons x xs ih =>
    cases i with
    | zero =>
      simp only [List.getElem?_cons_zero, Option.some.injEq] at h
      subst h
      simp [hp]
    | succ j =>
      simp only [List.getElem?_cons_succ] at h
      simp [ih j h]

theorem samePtrs_refl (l : List CtrlBlock) : samePtrs l l :=
  fun _ b hb => ⟨b, hb, rfl⟩

theorem samePtrs_trans (l l2 l3 : List CtrlBlock) (h1 : samePtrs l l2)
    (h2 : samePtrs l2 l3) : samePtrs l l3 := by
  intro j b hb
  obtain ⟨b2, hb2, hp2⟩ := h1 j b hb
  obtain ⟨b3, hb3, hp3⟩ := h2 j b2 hb2
  exact ⟨b3, hb3, hp3.trans hp2⟩

theorem samePtrs_set (l : List CtrlBlock) (i : Nat) (b b2 : CtrlBlock)
    (h : l[i]? = some b) (hp : b2.ptr = b.ptr) : samePtrs l (l.set i b2) := by
  intro j c hc
  by_cases he : i = j
  · subst he
    rw [h] at hc
    simp only [Option.some.injEq] at hc
    subst hc
    have hlt : i < l.length := by
      rcases Nat.lt_or_ge i l.length with hlt | hge
      · exact hlt
      · rw [List.getElem?_eq_none hge] at h; cases h
    exact ⟨b2, by simp [List.getElem?_set, hlt], hp⟩
  · exact ⟨c, by simp [List.getElem?_set, he, hc], rfl⟩

theorem samePtrs_append (l extra : List CtrlBlock) : samePtrs l (l ++ extra) := by
  intro j b hb
  have hlt : j < l.length := by
    rcases Nat.lt_or_ge j l.length with hlt | hge
    · exact hlt
    · rw [List.getElem?_eq_none hge] at hb; cases hb
  exact ⟨b, by rw [List.getElem?_append_left hlt]; exact hb, rfl⟩

theorem Grows_refl (N : Native) (w : World) : Grows N w w :=
  ⟨samePtrs_refl _, fun h => h⟩

theorem Grows_trans (N : Native) (w w2 w3 : World) (h1 : Grows N w w2)
    (h2 : Grows N w2 w3) : Grows N w w3 :=
  ⟨samePtrs_trans _ _ _ h1.1 h2.1, fun h => h2.2 (h1.2 h)⟩

theorem Grows_call (N : Native) (w : World) (c : NativeCall)
    (hc : ∀ p sz, c ≠ NativeCall.TTF_OpenFont p sz) : Grows N w (w.call c) := by
  refine ⟨samePtrs_refl _, ?_⟩
  intro h
  simp only [HandlesInv, World.call, openedHandles_append_single,
    openResult_of_not_open N w.calls c hc, List.append_nil]
  exact h

theorem Grows_copy (N : Native) (w : World) (sp : SharedPtr) :
    Grows N w (SharedPtr.copy w sp).2 := by
  simp only [SharedPtr.copy]
  cases hb : w.blocks[sp.pn]? with
  | none => exact Grows_refl N w
  | some b =>
    refine ⟨samePtrs_set _ _ b _ hb rfl, ?_⟩
    intro h
    exact (map_ptr_set w.blocks sp.pn b ⟨b.ptr, b.useCount + 1⟩ hb rfl).trans h

theorem Grows_release (N : Native) (w : World) (sp : SharedPtr) :
    Grows N w (SharedPtr.release w sp) := by
  simp only [SharedPtr.release]
  cases hb : w.blocks[sp.pn]? with
  | none => exact Grows_refl N w
  | some b =>
    by_cases h0 : b.useCount = 0
    · simp only [h0, if_true]
      exact Grows_refl N w
    · by_cases h1 : b.useCount = 1
      · simp only [h1, if_true, if_false, Nat.one_ne_zero]
        refine ⟨samePtrs_set _ _ b _ hb rfl, ?_⟩
        intro h
        simp only [HandlesInv, openedHandles_append_single, openResult, List.append_nil]
        exact (map_ptr_set w.blocks sp.pn b ⟨b.ptr, 0⟩ hb rfl).trans h
      · simp only [h0, h1, if_false]
        refine ⟨samePtrs_set _ _ b _ hb rfl, ?_⟩
        intro h
        exact (map_ptr_set w.blocks sp.pn b ⟨b.ptr, b.useCount - 1⟩ hb rfl).trans h

theorem Grows_open_new (N : Native) (w : World) (p : String) (s : Int) :
    Grows N w (SharedPtr.new (w.call (NativeCall.TTF_OpenFont p s))
      (N.TTF_OpenFont w.calls p s)).2 := by
  refine ⟨samePtrs_append _ _, ?_⟩
  intro h
  simp only [HandlesInv, SharedPtr.new, World.call, openedHandles_append_single,
    openResult, List.map_append, List.map_cons, List.map_nil]
  rw [h]

theorem Grows_Font_new (N : Native) (w : World) (p : String) (s : Int) :
    Grows N w (Font.new N w p s).2 := by
  have hg := Grows_open_new N w p s
  by_cases h0 : N.TTF_OpenFont w.calls p s = NULL
  · have hg2 := Grows_call N _ NativeCall.TTF_GetError (fun _ _ => by simp)
      |> Grows_trans N w _ _ hg
    have hg3 := Grows_trans N w _ _ hg2
      (Grows_release N _ ⟨N.TTF_OpenFont w.calls p s, w.blocks.length⟩)
    simp only [Font.new, SharedPtr.get, SharedPtr.new, h0, if_true]
    rw [h0] at hg3
    exact hg3
  · simp only [Font.new, SharedPtr.get, SharedPtr.new, h0, if_false]
    exact hg

theorem Font_new_ok_block (N : Native) (w : World) (p : String) (s : Int) (f : Font)
    (h : (Font.new N w p s).1 = Except.ok f) :
    (Font.new N w p s).2.blocks[f.font_.pn]? = some ⟨f.font_.px, 1⟩ := by
  by_cases h0 : N.TTF_OpenFont w.calls p s = NULL
  · simp [Font.new, SharedPtr.new, SharedPtr.get, World.call, h0] at h
  · simp only [Font.new, SharedPtr.new, SharedPtr.get, World.call, h0, if_false,
      Except.ok.injEq] at h
    subst h
    simp [Font.new, SharedPtr.new, SharedPtr.get, World.call, h0]

theorem Grows_Font_copy (N : Native) (w : World) (f : Font) :
    Grows N w (Font.copy w f).2 :=
  Grows_copy N w f.font_

theorem Grows_Font_destroy (N : Native) (w : World) (f : Font) :
    Grows N w (Font.destroy w f) :=
  Grows_release N w f.font_

theorem Grows_destroyAll (N : Native) (L : List Font) (w : World) :
    Grows N w (destroyAll w L) := by
  induction L generalizing w with
  | nil => exact Grows_refl N w
  | cons f rest ih =>
    exact Grows_trans N w _ _ (Grows_Font_destroy N w f) (ih (Font.destroy w f))

theorem Grows_font (N : Native) (w : World) (fm : FontManager) (p : String) (s : Int) :
    Grows N w (FontManager.font N w fm p s).2.1 := by
  cases hl : fm.lookup p s with
  | some c =>
    rw [font_hit N w fm p s c hl]
    exact Grows_Font_copy N w c
  | none =>
    cases hn : (Font.new N w p s).1 with
    | error e =>
      rw [font_miss_error N w fm p s e hl hn]
      exact Grows_Font_new N w p s
    | ok f =>
      obtain ⟨_, h2, _, _⟩ := font_miss_ok N w fm p s f hl hn
      rw [h2]
      exact Grows_trans N w _ _ (Grows_Font_new N w p s) (Grows_Font_copy N _ f)

/-! ## Lemmas: blocks and handles along a program -/

theorem FontsInv_mono (w w2 : World) (L L2 : List Font) (h : FontsInv w L)
    (hs : samePtrs w.blocks w2.blocks) (hsub : ∀ f ∈ L2, f ∈ L) : FontsInv w2 L2 := by
  intro f hf
  obtain ⟨b, hb, hp⟩ := h f (hsub f hf)
  obtain ⟨b2, hb2, hp2⟩ := hs _ b hb
  exact ⟨b2, hb2, hp2.trans hp⟩

theorem mem_cacheFonts_font_miss_ok (N : Native) (w : World) (fm : FontManager)
    (p : String) (s : Int) (f f2 : Font) (h : fm.lookup p s = none)
    (hn : (Font.new N w p s).1 = Except.ok f)
    (hm : f2 ∈ cacheFonts (FontManager.font N w fm p s).2.2.fonts_) :
    f2 = f ∨ f2 ∈ cacheFonts fm.fonts_ := by
  have hc := font_miss_ok_cacheFonts N w fm p s f (fun x => decide (x = f2)) h hn
  have hpos : 0 < (cacheFonts (FontManager.font N w fm p s).2.2.fonts_).countP
      (fun x => decide (x = f2)) :=
    List.countP_pos_iff.mpr ⟨f2, hm, by simp⟩
  by_cases he : f = f2
  · exact Or.inl he.symm
  · right
    rw [hc] at hpos
    simp only [decide_eq_true_eq, he, if_false, Nat.add_zero] at hpos
    obtain ⟨a, ha, hq⟩ := List.countP_pos_iff.mp hpos
    simp only [decide_eq_true_eq] at hq
    subst hq
    exact ha

theorem handles_step_inv (N : Native) (s : Program) (op : Op)
    (h1 : HandlesInv N s.w) (h2 : FontsInv s.w s.liveFonts) :
    HandlesInv N (s.step N op).w ∧ FontsInv (s.step N op).w (s.step N op).liveFonts := by
  obtain ⟨w, mgr, fonts⟩ := s
  cases op with
  | construct filename pointSize =>
    have hg := Grows_Font_new N w filename pointSize
    cases hn : (Font.new N w filename pointSize).1 with
    | error e =>
      simp only [Program.step, hn]
      exact ⟨hg.2 h1, FontsInv_mono w _ _ _ h2 hg.1 (fun f hf => hf)⟩
    | ok f =>
      simp only [Program.step, hn]
      refine ⟨hg.2 h1, ?_⟩
      intro f2 hf2
      simp only [Program.liveFonts, List.cons_append, List.mem_cons] at hf2
      rcases hf2 with he | hm
      · subst he
        exact ⟨_, Font_new_ok_block N w filename pointSize f2 hn, rfl⟩
      · exact FontsInv_mono w _ _ _ h2 hg.1 (fun f hf => hf) f2 hm
  | font fileName pointSize =>
    cases mgr with
    | none => exact ⟨h1, h2⟩
    | some fm =>
      have hg := Grows_font N w fm fileName pointSize
      cases hl : fm.lookup fileName pointSize with
      | some c =>
        rw [font_hit N w fm fileName pointSize c hl] at hg
        simp only [Program.step, font_hit N w fm fileName pointSize c hl]
        refine ⟨hg.2 h1, FontsInv_mono w _ _ _ h2 hg.1 ?_⟩
        intro f hf
        simp only [Program.liveFonts, List.cons_append, List.mem_cons, List.mem_append] at hf ⊢
        rcases hf with he | hm
        · subst he
          exact Or.inr (mem_cacheFonts_of_lookup fm fileName pointSize f hl)
        · exact hm
      | none =>
        cases hn : (Font.new N w fileName pointSize).1 with
        | error e =>
          rw [font_miss_error N w fm fileName pointSize e hl hn] at hg
          simp only [Program.step, font_miss_error N w fm fileName pointSize e hl hn]
          exact ⟨hg.2 h1, FontsInv_mono w _ _ _ h2 hg.1 (fun f hf => hf)⟩
        | ok f =>
          obtain ⟨e1, e2, _, _⟩ := font_miss_ok N w fm fileName pointSize f hl hn
          have hmem := fun f2 => mem_cacheFonts_font_miss_ok N w fm fileName pointSize f f2 hl hn
          simp only [Program.step, e1]
          refine ⟨hg.2 h1, ?_⟩
          have hnew : ∃ b, (FontManager.font N w fm fileName pointSize).2.1.blocks[f.font_.pn]? =
              some b ∧ b.ptr = f.font_.px := by
            rw [e2]
            obtain ⟨b2, hb2, hp2⟩ := (Grows_Font_copy N (Font.new N w fileName pointSize).2 f).1
              _ _ (Font_new_ok_block N w fileName pointSize f hn)
            exact ⟨b2, hb2, hp2⟩
          intro f2 hf2
          simp only [Program.liveFonts, List.cons_append, List.mem_cons, List.mem_append] at hf2
          have hold : f2 = f ∨ f2 ∈ Program.liveFonts ⟨w, some fm, fonts⟩ := by
            simp only [Program.liveFonts, List.mem_append]
            rcases hf2 with he | hm | hm
            · exact Or.inl he
            · exact Or.inr (Or.inl hm)
            · rcases hmem f2 hm with he | hc
              · exact Or.inl he
              · exact Or.inr (Or.inr hc)
          rcases hold with he | hm
          · subst he
            exact hnew
          · exact FontsInv_mono w _ _ _ h2 hg.1 (fun f hf => hf) f2 hm
  | copy i =>
    cases hf : fonts[i]? with
    | none =>
      simp only [Program.step, hf]
      exact ⟨h1, h2⟩
    | some f =>
      have hg := Grows_Font_copy N w f
      simp only [Program.step, hf, Font_copy_fst]
      refine ⟨hg.2 h1, FontsInv_mono w _ _ _ h2 hg.1 ?_⟩
      intro f2 hf2
      simp only [Program.liveFonts, List.cons_append, List.mem_cons, List.mem_append] at hf2 ⊢
      rcases hf2 with he | hm
      · subst he
        exact Or.inl (mem_of_getElem? fonts i f2 hf)
      · exact hm
  | destroy i =>
    cases hf : fonts[i]? with
    | none =>
      simp only [Program.step, hf]
      exact ⟨h1, h2⟩
    | some f =>
      have hg := Grows_Font_destroy N w f
      simp only [Program.step, hf]
      refine ⟨hg.2 h1, FontsInv_mono w _ _ _ h2 hg.1 ?_⟩
      intro f2 hf2
      simp only [Program.liveFonts, List.mem_append] at hf2 ⊢
      rcases hf2 with hm | hm
      · exact Or.inl (List.mem_of_mem_eraseIdx hm)
      · exact Or.inr hm
  | exit =>
    cases mgr with
    | none => exact ⟨h1, h2⟩
    | some fm =>
      have hg := Grows_destroyAll N (cacheFonts fm.fonts_) w
      simp only [Program.step]
      refine ⟨hg.2 h1, FontsInv_mono w _ _ _ h2 hg.1 ?_⟩
      intro f2 hf2
      simp only [Program.liveFonts, List.mem_append, List.append_nil] at hf2 ⊢
      exact Or.inl hf2

theorem handles_run_inv (N : Native) (ops : List Op) (s : Program)
    (h1 : HandlesInv N s.w) (h2 : FontsInv s.w s.liveFonts) :
    HandlesInv N (s.run N ops).w ∧ FontsInv (s.run N ops).w (s.run N ops).liveFonts := by
  induction ops generalizing s with
  | nil => exact ⟨h1, h2⟩
  | cons op rest ih =>
    simp only [Program.run, List.foldl_cons]
    have := handles_step_inv N s op h1 h2
    exact ih (s.step N op) this.1 this.2

theorem handles_init_inv (N : Native) :
    HandlesInv N Program.init.w ∧ FontsInv Program.init.w Program.init.liveFonts := by
  refine ⟨rfl, ?_⟩
  intro f hf
  simp [Program.init, Program.liveFonts, cacheFonts] at hf

theorem count_ptr_split (h : Ptr) (l : List CtrlBlock) :
    (l.map CtrlBlock.ptr).count h =
      l.countP (CtrlBlock.releasedWith h) + l.countP (CtrlBlock.aliveWith h) := by
  induction l with
  | nil => rfl
  | cons b rest ih =>
    simp only [List.map_cons, List.count_cons, List.countP_cons, ih,
      CtrlBlock.releasedWith, CtrlBlock.aliveWith, beq_iff_eq]
    by_cases hp : b.ptr = h <;> by_cases hu : b.useCount = 0 <;> simp [hp, hu] <;> omega

/-! ## Theorem: the release of native handles -/

/-- C9: in every state a program reaches by constructing, copying and
destroying `Font` values, calling `FontManager::font` and destroying the
`FontManager`:
the control blocks own, one for one, the handles the `TTF_OpenFont` calls of
the history returned; every live `Font`, the client's and the cached ones,
shares a block that owns the handle the `Font` holds, and the use count of a
block is the number of live `Font` values sharing it; for every handle `h`
the `TTF_OpenFont` calls that returned `h` are as many as the calls
`TTF_CloseFont (h)` and the constructions of `h` that still have a live `Font`
together; so a handle that one construction obtained has not been closed
while a live `Font` holds it, and has been closed exactly once when no live
`Font` holds it.  Four runs with a native library that opens every font show
it: the handle 1 is not closed while a copy or the cache holds it, and is
closed once when the last `Font` holding it is destroyed. -/
theorem close_once_when_last_Font_destroyed (N : Native) (ops : List Op) :
    (Program.init.run N ops).w.blocks.map CtrlBlock.ptr =
      openedHandles N (Program.init.run N ops).w.calls ∧
    (∀ f ∈ (Program.init.run N ops).liveFonts,
      ∃ b, (Program.init.run N ops).w.blocks[f.font_.pn]? = some b ∧ b.ptr = f.deref ∧
        b.useCount = (Program.init.run N ops).sharers f.font_.pn ∧ 0 < b.useCount) ∧
    (∀ i b, (Program.init.run N ops).w.blocks[i]? = some b →
      b.useCount = (Program.init.run N ops).sharers i) ∧
    (∀ h, closeCount h (Program.init.run N ops).w.calls =
      (Program.init.run N ops).w.blocks.countP (CtrlBlock.releasedWith h)) ∧
    (∀ h, (openedHandles N (Program.init.run N ops).w.calls).count h =
      closeCount h (Program.init.run N ops).w.calls +
        (Program.init.run N ops).w.blocks.countP (CtrlBlock.aliveWith h)) ∧
    (∀ h, (openedHandles N (Program.init.run N ops).w.calls).count h = 1 →
      ((∃ f ∈ (Program.init.run N ops).liveFonts, f.deref = h) →
        closeCount h (Program.init.run N ops).w.calls = 0) ∧
      ((∀ f ∈ (Program.init.run N ops).liveFonts, f.deref ≠ h) →
        closeCount h (Program.init.run N ops).w.calls = 1)) ∧
    (Program.init.run nativeOk
        [Op.construct "a.ttf" 12, Op.copy 0, Op.destroy 0]).w.calls =
      [NativeCall.TTF_OpenFont "a.ttf" 12] ∧
    (Program.init.run nativeOk
        [Op.construct "a.ttf" 12, Op.copy 0, Op.destroy 0, Op.destroy 0]).w.calls =
      [NativeCall.TTF_OpenFont "a.ttf" 12, NativeCall.TTF_CloseFont 1] ∧
    (Program.init.run nativeOk [Op.font "a.ttf" 12, Op.destroy 0]).w.calls =
      [NativeCall.TTF_OpenFont "a.ttf" 12] ∧
    (Program.init.run nativeOk [Op.font "a.ttf" 12, Op.destroy 0, Op.exit]).w.calls =
      [NativeCall.TTF_OpenFont "a.ttf" 12, NativeCall.TTF_CloseFont 1] := by
  obtain ⟨_, h2, h3⟩ := run_inv N ops Program.init init_inv
  obtain ⟨g1, g2⟩ := handles_run_inv N ops Program.init (handles_init_inv N).1
    (handles_init_inv N).2
  have hsplit := fun h => count_ptr_split h (Program.init.run N ops).w.blocks
  have hlive : ∀ f ∈ (Program.init.run N ops).liveFonts,
      ∃ b, (Program.init.run N ops).w.blocks[f.font_.pn]? = some b ∧ b.ptr = f.deref ∧
        b.useCount = (Program.init.run N ops).sharers f.font_.pn ∧ 0 < b.useCount := by
    intro f hf
    obtain ⟨b, hb, hp⟩ := g2 f hf
    have hu := h2 _ b hb
    refine ⟨b, hb, hp, hu, ?_⟩
    rw [hu]
    exact countP_shares_pos_of_mem _ f hf
  refine ⟨g1, hlive, h2, h3, ?_, ?_, rfl, rfl, rfl, rfl⟩
  · intro h
    rw [← g1, hsplit h, h3 h]
  · intro h hone
    rw [← g1, hsplit h, ← h3 h] at hone
    refine ⟨?_, ?_⟩
    · rintro ⟨f, hf, hd⟩
      obtain ⟨b, hb, hp, _, hpos⟩ := hlive f hf
      have halive : 0 < (Program.init.run N ops).w.blocks.countP (CtrlBlock.aliveWith h) := by
        refine List.countP_pos_iff.mpr ⟨b, List.getElem?_mem hb, ?_⟩
        simp only [CtrlBlock.aliveWith, Bool.and_eq_true, decide_eq_true_eq,
          Bool.not_eq_true', decide_eq_false_iff_not]
        exact ⟨hp.trans hd, by omega⟩
      omega
    · intro hnone
      have hzero : (Program.init.run N ops).w.blocks.countP (CtrlBlock.aliveWith h) = 0 := by
        rw [List.countP_eq_zero]
        intro b hb hal
        simp only [CtrlBlock.aliveWith, Bool.and_eq_true, decide_eq_true_eq,
          Bool.not_eq_true', decide_eq_false_iff_not] at hal
        obtain ⟨i, hi⟩ := List.getElem?_of_mem hb
        have hu := h2 i b hi
        have hpos : 0 < (Program.init.run N ops).liveFonts.countP (Font.shares i) := by
          have : (Program.init.run N ops).sharers i =
              (Program.init.run N ops).liveFonts.countP (Font.shares i) := rfl
          omega
        obtain ⟨f, hf, hsh⟩ := List.countP_pos_iff.mp hpos
        simp only [Font.shares, decide_eq_true_eq] at hsh
        obtain ⟨b2, hb2, hp2⟩ := g2 f hf
        rw [hsh, hi] at hb2
        simp only [Option.some.injEq] at hb2
        subst hb2
        exact hnone f hf (hp2.symm.trans hal.1)
      omega

end sdl
